import Mathlib

/-!
# Quote keeper: a model of `src/js/index.js` and `src/js/utils/pairs.js`

The keeper arms a 3000 ms timer; its callback walks the pair list, asks the
router for the amounts along `tokenIn -> WETH -> tokenOut` for one unit of
`tokenIn`, prints one line per pair and a separator, and calls `startKeeper`
again.

Layout of the development:

* tokens, pairs and the address constants;
* the two `ethers` (v5) helpers the callback calls, `parseUnits` and
  `formatUnits`, and the text `console.log` writes;
* the keeper as a machine over an explicit event loop (armed timers and
  suspended callbacks), with one step per timer firing and one per router
  response;
* the theorems.
-/

namespace AzosKeeper

set_option maxRecDepth 8000

/-! ## Tokens, pairs, addresses -/

/-- Token record of `utils/pairs.js`: `{ address, symbol, decimals }`. -/
structure Token where
  address : String
  symbol : String
  decimals : Nat
deriving DecidableEq, Repr

/-- Entry of the `pairs` array of `index.js`: `{ tokenIn, tokenOut }`. -/
structure Pair where
  tokenIn : Token
  tokenOut : Token
deriving DecidableEq, Repr

/-- Constants exported by `utils/addresses.js`. That file is not among the
sources, so its four strings are parameters of the model. -/
structure Addresses where
  WETH_ADDRESS : String
  UNISWAP_ROUTER : String
  USDT_ADDRESS : String
  USDC_ADDRESS : String
deriving DecidableEq, Repr

/-- Token `USDT` of `utils/pairs.js`. -/
def USDT (a : Addresses) : Token :=
  { address := a.USDT_ADDRESS, symbol := "USDT", decimals := 6 }

/-- Token `USDC` of `utils/pairs.js`. -/
def USDC (a : Addresses) : Token :=
  { address := a.USDC_ADDRESS, symbol := "USDC", decimals := 6 }

/-- Array `pairs` of `index.js`. -/
def pairs (a : Addresses) : List Pair :=
  [ { tokenIn := USDT a, tokenOut := USDC a },
    { tokenIn := USDC a, tokenOut := USDT a } ]

/-! ## Faults -/

/-- Exceptions that can end the timer callback. The first six are thrown by the
`ethers` helpers, the seventh by the runtime, and the last one is a rejected
`getAmountsOut` call. -/
inductive Fault where
  /-- `getMultiplier`: "invalid decimal size". -/
  | invalidDecimalSize
  /-- `parseFixed`: "invalid decimal value". -/
  | invalidDecimalValue
  /-- `parseFixed`: "missing value". -/
  | missingValue
  /-- `parseFixed`: "too many decimal points". -/
  | tooManyDecimalPoints
  /-- `parseFixed`: "fractional component exceeds decimals". -/
  | underflow
  /-- `BigNumber.from` on a value that is no number, such as `undefined`. -/
  | invalidBigNumber
  /-- A `match` that found nothing was indexed. -/
  | typeError
  /-- The promise returned by `routerContract.getAmountsOut` was rejected. -/
  | callException (msg : String)
deriving DecidableEq, Repr

deriving instance DecidableEq for Except

/-! ## The `ethers` v5 helpers

`ethers.utils.parseUnits` and `ethers.utils.formatUnits` belong to the
`ethers` package (v5, the version that has `ethers.utils` and
`providers.StaticJsonRpcProvider`), a dependency of the repository. With a
numeric second argument they are `parseFixed` and `formatFixed` of
`@ethersproject/bignumber` (`fixednumber.ts`); the definitions below follow
those two functions statement by statement. Strings are handled as lists of
characters. -/

/-- Constant `zeros` of `fixednumber.ts`: the string built by doubling `"0"`
until it has 256 characters. -/
def zeros : List Char := List.replicate 256 '0'

/-- Function `getMultiplier`: `"1"` followed by `decimals` zeros, for a
size between 0 and 256; any other size throws. -/
def getMultiplier (decimals : Nat) : Except Fault (List Char) :=
  if decimals ≤ 256 then .ok ('1' :: zeros.take decimals)
  else .error .invalidDecimalSize

/-- Value of a string of decimal digits, as `BigNumber.from` reads it; a
string that is empty or holds another character is rejected. -/
def bigNumberFrom (s : List Char) : Except Fault Nat :=
  if s ≠ [] ∧ s.all Char.isDigit then
    .ok (s.foldl (fun acc c => 10 * acc + (c.toNat - '0'.toNat)) 0)
  else .error .invalidBigNumber

/-- Loop `while (fraction[fraction.length - 1] === "0")` of `parseFixed`:
drops the zeros at the end. -/
def trimTrailingZeros (fraction : List Char) : List Char :=
  (fraction.reverse.dropWhile (fun c => c == '0')).reverse

/-- Loop `while (fraction.length < multiplier.length - 1) fraction += "0"`
of `parseFixed`, run for the `k` rounds it takes. -/
def padRightLoop : Nat → List Char → List Char
  | 0, fraction => fraction
  | k + 1, fraction => padRightLoop k (fraction ++ ['0'])

/-- Loop `while (fraction.length < multiplier.length - 1) fraction = "0" + fraction`
of `formatFixed`, run for the `k` rounds it takes. -/
def padLeftLoop : Nat → List Char → List Char
  | 0, fraction => fraction
  | k + 1, fraction => padLeftLoop k ('0' :: fraction)

/-- Test `value.match(/^-?[0-9.]+$/)` of `parseFixed`. -/
def isDecimalValue (value : List Char) : Bool :=
  let body := match value with
    | '-' :: rest => rest
    | _ => value
  body ≠ [] && body.all (fun c => c.isDigit || c == '.')

/-- Function `parseFixed(value, decimals)`: the base-unit integer of a decimal
string at scale `decimals`. -/
def parseFixed (value : String) (decimals : Nat) : Except Fault Int := do
  let multiplier ← getMultiplier decimals
  if !isDecimalValue value.data then throw .invalidDecimalValue
  let negative := value.data.head? == some '-'
  let value := if negative then value.data.drop 1 else value.data
  if value == ['.'] then throw .missingValue
  let comps := value.splitOn '.'
  if comps.length > 2 then throw .tooManyDecimalPoints
  let whole := comps.getD 0 []
  let fraction := comps.getD 1 []
  let whole := if whole == [] then ['0'] else whole
  let fraction := if fraction == [] then ['0'] else fraction
  let fraction := trimTrailingZeros fraction
  if fraction.length > multiplier.length - 1 then throw .underflow
  let fraction := if fraction == [] then ['0'] else fraction
  let fraction := padRightLoop (multiplier.length - 1 - fraction.length) fraction
  let wholeValue ← bigNumberFrom whole
  let fractionValue ← bigNumberFrom fraction
  let multiplierValue ← bigNumberFrom multiplier
  let wei : Int := (wholeValue * multiplierValue + fractionValue : Nat)
  return if negative then wei * (-1) else wei

/-- Function `ethers.utils.parseUnits(value, unitName)` for a numeric `unitName`. -/
def parseUnits (value : String) (unitName : Nat) : Except Fault Int :=
  parseFixed value unitName

/-- Result `[1]` of `fraction.match(/^([0-9]*[1-9]|0)(0*)/)` in `formatFixed`:
the longest start of the leading digits that ends in a non-zero digit, or `"0"`
when there is none and the string starts with a zero. -/
def fractionMatch (fraction : List Char) : Except Fault (List Char) :=
  let kept := trimTrailingZeros (fraction.takeWhile Char.isDigit)
  if kept ≠ [] then .ok kept
  else if fraction.head? == some '0' then .ok ['0']
  else .error .typeError

/-- Function `formatFixed(value, decimals)`: the decimal string of a base-unit
integer at scale `decimals`; `value` is `none` for `undefined`, which
`BigNumber.from` rejects. -/
def formatFixed (value : Option Int) (decimals : Nat) : Except Fault String := do
  let multiplier ← getMultiplier decimals
  let multiplierValue ← bigNumberFrom multiplier
  let value ← match value with
    | none => throw .invalidBigNumber
    | some v => pure v
  let negative := value < 0
  let value : Nat := if negative then (value * (-1)).toNat else value.toNat
  let fraction := (Nat.repr (value % multiplierValue)).data
  let fraction := padLeftLoop (multiplier.length - 1 - fraction.length) fraction
  let fraction ← fractionMatch fraction
  let whole := (Nat.repr (value / multiplierValue)).data
  let value := if multiplier.length == 1 then whole else whole ++ '.' :: fraction
  let value := if negative then '-' :: value else value
  return String.mk value

/-- Function `ethers.utils.formatUnits(value, unitName)` for a numeric `unitName`. -/
def formatUnits (value : Option Int) (unitName : Nat) : Except Fault String :=
  formatFixed value unitName

/-! ## Console output

`console.log(...args)` writes `util.format(...args)` and a line break. With
more than one argument and a string in first place, the first argument is a
format string: a percent sign and the character after it may stand for a later
argument, which is then consumed. -/

/-- Scan of the format string by `formatWithOptions` of Node's `util`, for
arguments that are all strings: the text produced from the format string and
the arguments left over. `%s` takes the next argument as it is, `%c` takes it
and writes nothing, `%%` writes one percent sign, a percent sign before any
other character (or in last place) stays as it is, and once the arguments are
used up only `%%` is still replaced. The directives `d i f j o O` read the
argument as a number or through `inspect`; their text is outside this model and
gives `none`. -/
def formatScan : List Char → List String → Option (List Char × List String)
  | '%' :: n :: cs, rest =>
    match rest with
    | [] =>
      if n = '%' then (formatScan cs []).map (fun r => ('%' :: r.1, r.2))
      else (formatScan cs []).map (fun r => ('%' :: n :: r.1, r.2))
    | a :: more =>
      if n = 's' then (formatScan cs more).map (fun r => (a.data ++ r.1, r.2))
      else if n = 'c' then formatScan cs more
      else if n = '%' then (formatScan cs rest).map (fun r => ('%' :: r.1, r.2))
      else if n ∈ ['d', 'i', 'f', 'j', 'o', 'O'] then none
      else (formatScan cs rest).map (fun r => ('%' :: n :: r.1, r.2))
  | c :: cs, rest => (formatScan cs rest).map (fun r => (c :: r.1, r.2))
  | [], rest => some ([], rest)

/-- Line written by `console.log` for string arguments: the scanned format
string, then each argument left over after one space. A single argument is
written as it is. -/
def consoleLog : List String → Option String
  | [] => some ""
  | [first] => some first
  | first :: rest =>
    (formatScan first.data rest).map
      (fun r => String.mk r.1 ++ String.join (r.2.map (fun a => " " ++ a)))

/-- Argument of the `console.log` call after the loop. -/
def separator : String := "-----------------------"

/-! ## The keeper over an explicit event loop -/

/-- Answer of `routerContract.getAmountsOut(amountIn, path)`: the decoded
`uint256[]`, or the fault the promise is rejected with. -/
abbrev Response := Except Fault (List Nat)

/-- Router seen from the callback: what `await routerContract.getAmountsOut`
yields for an input amount and a path. -/
abbrev Router := Int → List String → Response

/-- Module-level bindings the callback reads: the array `pairs` and the constant
`WETH_ADDRESS`. -/
structure Env where
  pairs : List Pair
  WETH_ADDRESS : String
deriving DecidableEq, Repr

/-- Bindings of `index.js` for given address constants. -/
def env (a : Addresses) : Env := { pairs := pairs a, WETH_ADDRESS := a.WETH_ADDRESS }

/-- Observable actions of the program. -/
inductive Event where
  /-- A timer ran out and its callback started: a cycle begins. -/
  | fire
  /-- Call `routerContract.getAmountsOut(amountIn, path)`. -/
  | query (amountIn : Int) (path : List String)
  /-- Call `console.log(...args)`. -/
  | log (args : List String)
  /-- Call `setTimeout(callback, delay)`. -/
  | arm (delay : Nat)
  /-- The promise of the `async` callback was rejected; nothing handles it. -/
  | reject (f : Fault)
deriving DecidableEq, Repr

/-- Callback suspended at `await`: the pair of the current iteration, the pairs
of the iterations still to come, and the call it waits for. -/
structure Frame where
  pair : Pair
  rest : List Pair
  amountIn : Int
  path : List String
deriving DecidableEq, Repr

/-- State of the event loop: the clock in milliseconds, the deadlines of the
armed timers, the callbacks suspended at `await`, and the events so far, oldest
first, each with the time it happened. -/
structure Keeper where
  now : Nat
  timers : List Nat
  awaiting : List Frame
  trace : List (Nat × Event)
deriving DecidableEq, Repr

/-- Record an event at the current time. -/
def emit (e : Event) (k : Keeper) : Keeper :=
  { k with trace := k.trace ++ [(k.now, e)] }

/-- Function `startKeeper` (lines 18 to 42): `setTimeout(callback, 3000)`. -/
def startKeeper (k : Keeper) : Keeper :=
  emit (.arm 3000) { k with timers := k.timers ++ [k.now + 3000] }

/-- Path argument of the query for a pair (line 26). -/
def route (e : Env) (p : Pair) : List String :=
  [p.tokenIn.address, e.WETH_ADDRESS, p.tokenOut.address]

/-- Callback from the loop test `i < pairs.length` on (line 20), `ps` being
`pairs[i], pairs[i+1], ...`. With no pair left it prints the separator and calls
`startKeeper` (lines 38 and 40). Otherwise it converts one unit of `tokenIn`
(line 25), issues the query (line 24) and is suspended at `await`; a fault of the
conversion rejects the callback. -/
def loopFrom (e : Env) : List Pair → Keeper → Keeper
  | [], k => startKeeper (emit (.log [separator]) k)
  | p :: rest, k =>
    match parseUnits "1" p.tokenIn.decimals with
    | .error f => emit (.reject f) k
    | .ok amountIn =>
      let k := emit (.query amountIn (route e p)) k
      { k with awaiting := k.awaiting ++
          [{ pair := p, rest := rest, amountIn := amountIn, path := route e p }] }

/-- Arguments of the `console.log` call of lines 29 to 35 when `quantityOut[2]` is
formatted at scale `scale`; the callback uses `tokenIn.decimals`. -/
def quoteArgs (p : Pair) (scale : Nat) (quantityOut : List Nat) : Except Fault (List String) := do
  let quote ← formatUnits ((quantityOut.get? 2).map Int.ofNat) scale
  return [p.tokenIn.symbol, "=>", p.tokenOut.symbol, ":", quote]

/-- Callback from the point where `await` yields (line 24) to the next
suspension or to its end: a rejected call rejects the callback; otherwise the
line of the pair is printed (lines 29 to 35) and the loop goes on. -/
def resume (e : Env) (fr : Frame) (resp : Response) (k : Keeper) : Keeper :=
  match resp with
  | .error f => emit (.reject f) k
  | .ok quantityOut =>
    match quoteArgs fr.pair fr.pair.tokenIn.decimals quantityOut with
    | .error f => emit (.reject f) k
    | .ok args => loopFrom e fr.rest (emit (.log args) k)

/-- What can happen next in the event loop. -/
inductive Label where
  /-- Time passes. -/
  | tick (d : Nat)
  /-- The armed timer number `i` fires. -/
  | fire (i : Nat)
  /-- The call awaited by the suspended callback number `i` settles. -/
  | resolve (i : Nat) (resp : Response)

/-- One step of the event loop. A timer fires only once its deadline is
reached; `none` when the step is not possible. -/
def step (e : Env) (k : Keeper) : Label → Option Keeper
  | .tick d => some { k with now := k.now + d }
  | .fire i =>
    match k.timers.get? i with
    | none => none
    | some t =>
      if t ≤ k.now then
        some (loopFrom e e.pairs (emit .fire { k with timers := k.timers.eraseIdx i }))
      else none
  | .resolve i resp =>
    match k.awaiting.get? i with
    | none => none
    | some fr => some (resume e fr resp { k with awaiting := k.awaiting.eraseIdx i })

/-- State right after module load: line 44 has called `startKeeper` at time `t0`. -/
def boot (t0 : Nat) : Keeper :=
  startKeeper { now := t0, timers := [], awaiting := [], trace := [] }

/-- States the program can be in when started at time `t0`. -/
inductive Reachable (e : Env) (t0 : Nat) : Keeper → Prop where
  | boot : Reachable e t0 (boot t0)
  | step {k k2 : Keeper} (l : Label) : Reachable e t0 k → step e k l = some k2 → Reachable e t0 k2

/-- Run of a list of steps; steps that are not possible are skipped. -/
def run (e : Env) : List Label → Keeper → Keeper
  | [], k => k
  | l :: ls, k => run e ls ((step e k l).getD k)

/-- Settle the awaited calls with the answers of `router`, for at most `n` calls. -/
def drive (e : Env) (router : Router) : Nat → Keeper → Keeper
  | 0, k => k
  | n + 1, k =>
    match k.awaiting.head? with
    | none => k
    | some fr =>
      match step e k (.resolve 0 (router fr.amountIn fr.path)) with
      | none => k
      | some k2 => drive e router n k2

/-- One poll cycle against `router`: after `wait` milliseconds the first timer
fires and every call the callback awaits is answered by `router`. It is `none`
when no timer is due by then. -/
def pollCycle (e : Env) (router : Router) (wait : Nat) (k : Keeper) : Option Keeper :=
  (step e { k with now := k.now + wait } (.fire 0)).map (drive e router e.pairs.length)

/-! ## Observations -/

/-- Events without their times. -/
def events (k : Keeper) : List Event := k.trace.map Prod.snd

/-- Events of `k2` that came after those of `k`. -/
def eventsSince (k k2 : Keeper) : List Event := (events k2).drop (events k).length

/-- Router queries among the events, in order. -/
def queriesOf : List Event → List (Int × List String)
  | [] => []
  | .query a p :: es => (a, p) :: queriesOf es
  | _ :: es => queriesOf es

/-- Argument lists of the `console.log` calls among the events, in order. -/
def logsOf : List Event → List (List String)
  | [] => []
  | .log args :: es => args :: logsOf es
  | _ :: es => logsOf es

/-- Lines written by a sequence of `console.log` calls. -/
def renderAll : List (List String) → Option (List String)
  | [] => some []
  | args :: more =>
    match consoleLog args, renderAll more with
    | some l, some ls => some (l :: ls)
    | _, _ => none

/-- Console output of the events, line by line. -/
def linesOf (es : List Event) : Option (List String) := renderAll (logsOf es)

/-- Timers armed among the events, with their delays. -/
def armsOf : List Event → List Nat
  | [] => []
  | .arm d :: es => d :: armsOf es
  | _ :: es => armsOf es

/-- Events of the callback from the loop test on, with `ps` the pairs left, when
every awaited call is answered by `router` at once: the loop of lines 20 to 40
read as one recursion over the pairs. -/
def loopTrace (e : Env) (router : Router) : List Pair → List Event
  | [] => [.log [separator], .arm 3000]
  | p :: rest =>
    match parseUnits "1" p.tokenIn.decimals with
    | .error f => [.reject f]
    | .ok amountIn =>
      .query amountIn (route e p) ::
        match router amountIn (route e p) with
        | .error f => [.reject f]
        | .ok quantityOut =>
          match quoteArgs p p.tokenIn.decimals quantityOut with
          | .error f => [.reject f]
          | .ok args => .log args :: loopTrace e router rest

/-! ## Sample configurations -/

/-- Address constants used in the examples. -/
def sampleAddresses : Addresses :=
  { WETH_ADDRESS := "0xWETH", UNISWAP_ROUTER := "0xROUTER",
    USDT_ADDRESS := "0xUSDT", USDC_ADDRESS := "0xUSDC" }

/-- Mock router of the scenario: `[1_000_000, 500_000_000_000_000_000, 990_000]` for
one USDT along USDT, WETH, USDC; every other call is rejected. -/
def scenarioRouter : Router := fun amountIn path =>
  if amountIn = 1000000 ∧ path = ["0xUSDT", "0xWETH", "0xUSDC"] then
    .ok [1000000, 500000000000000000, 990000]
  else .error (.callException "call revert exception")

/-- Router that answers every call with three amounts, the last one `990_000`. -/
def steadyRouter : Router := fun amountIn _ => .ok [amountIn.toNat, 500000000000000000, 990000]

/-- Router that answers every call with two amounts only, one fewer than the route
has addresses. -/
def shortRouter : Router := fun _ _ => .ok [1000000, 990000]

/-- Token whose `decimals` is above the largest size `ethers` accepts. -/
def wideToken : Token := { address := "0xWIDE", symbol := "WIDE", decimals := 257 }

/-- Token whose symbol is a format directive of `console.log`. -/
def percentToken : Token := { address := "0xPCT", symbol := "%s", decimals := 6 }

/-- Token with `decimals` 0. -/
def unitToken : Token := { address := "0xUNIT", symbol := "UNIT", decimals := 0 }

/-- Bindings with the single pair `(wideToken, USDC)`. -/
def wideEnv : Env :=
  { pairs := [{ tokenIn := wideToken, tokenOut := USDC sampleAddresses }], WETH_ADDRESS := "0xWETH" }

/-- Bindings with the single pair `(percentToken, USDC)`. -/
def percentEnv : Env :=
  { pairs := [{ tokenIn := percentToken, tokenOut := USDC sampleAddresses }],
    WETH_ADDRESS := "0xWETH" }

/-- Bindings with an empty pair list. -/
def emptyEnv : Env := { pairs := [], WETH_ADDRESS := "0xWETH" }

/-! ## Shape of a trace -/

/-- Every firing of a timer comes right after the arming of a 3000 ms timer and
at least 3000 ms later. -/
def FireSpaced (tr : List (Nat × Event)) : Prop :=
  ∀ pre post t, tr = pre ++ (t, Event.fire) :: post →
    ∃ pre2 t1, pre = pre2 ++ [(t1, Event.arm 3000)] ∧ t1 + 3000 ≤ t

/-- Every timer is armed for 3000 ms, and every one but the first of the trace
right after the separator was printed, at the same instant. -/
def ArmedAfterSeparator (tr : List (Nat × Event)) : Prop :=
  ∀ pre post t d, tr = pre ++ (t, Event.arm d) :: post →
    d = 3000 ∧ (pre = [] ∨ ∃ pre2, pre = pre2 ++ [(t, Event.log [separator])])

/-- The trace starts with the arming at `t0`; whatever follows starts with a
firing and happens at `t0 + 3000` or later. -/
def StartsIdle (t0 : Nat) (tr : List (Nat × Event)) : Prop :=
  ∃ rest, tr = (t0, Event.arm 3000) :: rest ∧ (∀ x ∈ rest, t0 + 3000 ≤ x.1) ∧
    (rest = [] ∨ ∃ t rest2, rest = (t, Event.fire) :: rest2)

/-- Facts about the trace of a state at time `now`. -/
structure TraceInv (t0 now : Nat) (tr : List (Nat × Event)) : Prop where
  fires : FireSpaced tr
  arms : ArmedAfterSeparator tr
  first : StartsIdle t0 tr
  mono : ∀ x ∈ tr, x.1 ≤ now

/-- Facts tying the timers and the suspended callbacks of a state to its trace. -/
structure StateInv (k : Keeper) : Prop where
  one : k.timers.length + k.awaiting.length ≤ 1
  armed : ∀ t ∈ k.timers, ∃ pre t1, k.trace = pre ++ [(t1, Event.arm 3000)] ∧ t = t1 + 3000
  busy : k.awaiting ≠ [] → 2 ≤ k.trace.length

/-- State of the sample keeper, started at time 0, once its first timer has fired
at time 3000: the query of the first pair is in flight. -/
def firstQueryState : Keeper :=
  run (env sampleAddresses) [.tick 3000, .fire 0] (boot 0)

/-- State of the sample keeper after one full cycle against `steadyRouter` and a
wait of 3000 ms: the second timer has fired at time 6000. -/
def secondCycleState : Keeper :=
  run (env sampleAddresses)
    [.tick 3000, .fire 0, .resolve 0 (.ok [1000000, 500000000000000000, 990000]),
      .resolve 0 (.ok [1000000, 500000000000000000, 990000]), .tick 3000, .fire 0] (boot 0)

/-! ## Vocabulary of the statements -/

/-- One unit of a token converted to base units at scale `d` (line 25) and the
result formatted at the same scale (line 34). -/
def unitRoundTrip (d : Nat) : Except Fault String := do
  let amount ← parseUnits "1" d
  formatUnits (some amount) d



/-- The router answers the query of pair `p` with one amount per address of the
route. -/
def Answers (e : Env) (router : Router) (p : Pair) : Prop :=
  ∃ amounts, router (10 ^ p.tokenIn.decimals) (route e p) = .ok amounts ∧
    amounts.length = (route e p).length

/-- The router answers the query of pair `p` with at least one amount per address
of the route, so that `quantityOut[2]` exists. -/
def AnswersEnough (e : Env) (router : Router) (p : Pair) : Prop :=
  ∃ amounts, router (10 ^ p.tokenIn.decimals) (route e p) = .ok amounts ∧
    (route e p).length ≤ amounts.length

/-- The list `args` is the `console.log` call for pair `p`: both symbols and the
final entry of the router's answer formatted at scale `tokenIn.decimals`. -/
def QuoteCall (e : Env) (router : Router) (p : Pair) (args : List String) : Prop :=
  ∃ amounts q, router (10 ^ p.tokenIn.decimals) (route e p) = .ok amounts ∧
    formatUnits (amounts.getLast?.map Int.ofNat) p.tokenIn.decimals = .ok q ∧
    args = [p.tokenIn.symbol, "=>", p.tokenOut.symbol, ":", q]

/-- The string `line` is the console line for pair `p`:
`<tokenIn.symbol> => <tokenOut.symbol> : <quote>`, the quote being the final entry
of the router's answer formatted at scale `tokenIn.decimals`. -/
def QuoteLine (e : Env) (router : Router) (p : Pair) (line : String) : Prop :=
  ∃ amounts q, router (10 ^ p.tokenIn.decimals) (route e p) = .ok amounts ∧
    formatUnits (amounts.getLast?.map Int.ofNat) p.tokenIn.decimals = .ok q ∧
    line = p.tokenIn.symbol ++ " => " ++ p.tokenOut.symbol ++ " : " ++ q

/-! ## Lemmas on the `ethers` helpers -/

theorem getMultiplier_ok {d : Nat} (h : d ≤ 256) :
    getMultiplier d = .ok ('1' :: List.replicate d '0') := by
  unfold getMultiplier zeros
  rw [if_pos h, List.take_replicate, Nat.min_eq_left h]

theorem getMultiplier_error {d : Nat} (h : 256 < d) :
    getMultiplier d = .error .invalidDecimalSize := by
  simp [getMultiplier, Nat.not_le.mpr h]

theorem foldl_digits_zeros (d acc : Nat) :
    List.foldl (fun acc c => 10 * acc + (c.toNat - '0'.toNat)) acc (List.replicate d '0')
      = acc * 10 ^ d := by
  induction d generalizing acc with
  | zero => simp
  | succ n ih =>
    rw [List.replicate_succ, List.foldl_cons, ih]
    have h0 : ('0'.toNat - '0'.toNat) = 0 := by decide
    rw [h0, pow_succ]
    ring

theorem all_isDigit_zeros (d : Nat) : (List.replicate d '0').all Char.isDigit = true := by
  induction d with
  | zero => rfl
  | succ n ih =>
    rw [List.replicate_succ, List.all_cons, ih]
    decide

theorem bigNumberFrom_multiplier (d : Nat) :
    bigNumberFrom ('1' :: List.replicate d '0') = .ok (10 ^ d) := by
  have hd : ('1' :: List.replicate d '0').all Char.isDigit = true := by
    rw [List.all_cons, all_isDigit_zeros]
    decide
  have h1 : 10 * 0 + ('1'.toNat - '0'.toNat) = 1 := by decide
  simp only [bigNumberFrom, ne_eq, reduceCtorEq, not_false_eq_true, hd, and_self, if_true,
    List.foldl_cons, h1, foldl_digits_zeros, one_mul]

theorem bigNumberFrom_zeros (d : Nat) :
    bigNumberFrom ('0' :: List.replicate d '0') = .ok 0 := by
  have hd : ('0' :: List.replicate d '0').all Char.isDigit = true := by
    rw [List.all_cons, all_isDigit_zeros]
    decide
  have h1 : 10 * 0 + ('0'.toNat - '0'.toNat) = 0 := by decide
  simp only [bigNumberFrom, ne_eq, reduceCtorEq, not_false_eq_true, hd, and_self, if_true,
    List.foldl_cons, h1, foldl_digits_zeros, zero_mul]

theorem padRightLoop_eq (k : Nat) (s : List Char) :
    padRightLoop k s = s ++ List.replicate k '0' := by
  induction k generalizing s with
  | zero => simp [padRightLoop]
  | succ n ih =>
    rw [padRightLoop, ih, List.append_assoc, List.replicate_succ]
    rfl

theorem padLeftLoop_eq (k : Nat) (s : List Char) :
    padLeftLoop k s = List.replicate k '0' ++ s := by
  induction k generalizing s with
  | zero => simp [padLeftLoop]
  | succ n ih =>
    rw [padLeftLoop, ih, List.replicate_succ']
    simp

/-- One unit at scale `d` is `10 ^ d` base units, for every size `getMultiplier` accepts. -/
theorem parseUnits_one {d : Nat} (h : d ≤ 256) : parseUnits "1" d = .ok ((10 : Int) ^ d) := by
  have hv : isDecimalValue "1".data = true := by decide
  have hs : ("1".data.splitOn '.') = [['1']] := by decide
  have hz : ['0'] ++ List.replicate (d - 1) '0' = '0' :: List.replicate (d - 1) '0' := rfl
  simp [parseUnits, parseFixed, getMultiplier_ok h, bind, Except.bind, hv, hs, trimTrailingZeros,
    padRightLoop_eq, hz, bigNumberFrom_zeros, bigNumberFrom_multiplier, pure, Except.pure,
    throw, throwThe, MonadExceptOf.throw]
  have h1 : bigNumberFrom ['1'] = .ok 1 := by decide
  simp [h1]

/-- A size above 256 is refused by the conversion. -/
theorem parseUnits_error {d : Nat} (h : 256 < d) (value : String) :
    parseUnits value d = .error .invalidDecimalSize := by
  simp [parseUnits, parseFixed, getMultiplier_error h, bind, Except.bind]

/-- A size above 256 is refused by the formatting. -/
theorem formatUnits_error {d : Nat} (h : 256 < d) (value : Option Int) :
    formatUnits value d = .error .invalidDecimalSize := by
  simp [formatUnits, formatFixed, getMultiplier_error h, bind, Except.bind]

/-- At scale 0 an amount is written as its integer string. -/
theorem formatUnits_zero (x : Nat) : formatUnits (some (x : Int)) 0 = .ok (Nat.repr x) := by
  have hm : getMultiplier 0 = .ok ['1'] := by decide
  have h1 : bigNumberFrom ['1'] = .ok 1 := by decide
  have hx : ¬ ((x : Int) < 0) := not_lt.mpr (Int.ofNat_nonneg x)
  have hf : fractionMatch (padLeftLoop 0 (Nat.repr 0).data) = .ok ['0'] := by decide
  simp [formatUnits, formatFixed, hm, h1, bind, Except.bind, pure, Except.pure, hx, Nat.mod_one, hf]

theorem fractionMatch_zeros (d : Nat) :
    fractionMatch ('0' :: List.replicate d '0') = .ok ['0'] := by
  have hd : Char.isDigit '0' = true := by decide
  have ht : List.takeWhile Char.isDigit ('0' :: List.replicate d '0') = List.replicate (d + 1) '0' := by
    rw [← List.replicate_succ, List.takeWhile_replicate, if_pos hd]
  have hk : trimTrailingZeros (List.replicate (d + 1) '0') = [] := by
    unfold trimTrailingZeros
    rw [List.reverse_replicate, List.dropWhile_replicate]
    simp
  unfold fractionMatch
  simp [ht, hk]

/-- One unit in base units, written back at the same scale, reads `1.0`, for
every scale from 1 to 256. -/
theorem formatUnits_unit {d : Nat} (h1 : 1 ≤ d) (h : d ≤ 256) :
    formatUnits (some ((10 : Int) ^ d)) d = .ok "1.0" := by
  obtain ⟨n, rfl⟩ : ∃ n, d = n + 1 := ⟨d - 1, by omega⟩
  have hx : ¬ ((10 : Int) ^ (n + 1) < 0) := not_lt.mpr (by positivity)
  have hnat : ((10 : Int) ^ (n + 1)).toNat = 10 ^ (n + 1) := by
    have : ((10 : Int) ^ (n + 1)) = ((10 ^ (n + 1) : Nat) : Int) := by push_cast; rfl
    rw [this, Int.toNat_natCast]
  have hpos : 0 < 10 ^ (n + 1) := by positivity
  have hr0 : (Nat.repr 0).data = ['0'] := by decide
  have hr1 : (Nat.repr 1).data = ['1'] := by decide
  have hpad : List.replicate n '0' ++ ['0'] = '0' :: List.replicate n '0' := by
    rw [← List.replicate_succ', List.replicate_succ]
  simp [formatUnits, formatFixed, getMultiplier_ok h, bigNumberFrom_multiplier, bind, Except.bind,
    pure, Except.pure, hx, hnat, Nat.mod_self, Nat.div_self hpos, hr0, hr1, padLeftLoop_eq, hpad,
    fractionMatch_zeros]

theorem isDigit_digitChar {m : Nat} (h : m < 10) : (Nat.digitChar m).isDigit = true := by
  interval_cases m <;> decide

theorem toDigitsCore_isDigit : ∀ (fuel n : Nat) (ds : List Char),
    (∀ c ∈ ds, c.isDigit = true) → ∀ c ∈ Nat.toDigitsCore 10 fuel n ds, c.isDigit = true := by
  intro fuel
  induction fuel with
  | zero => intro n ds h; simpa [Nat.toDigitsCore] using h
  | succ f ih =>
    intro n ds h
    have hd : (Nat.digitChar (n % 10)).isDigit = true := isDigit_digitChar (Nat.mod_lt _ (by decide))
    have hcons : ∀ c ∈ Nat.digitChar (n % 10) :: ds, c.isDigit = true := by
      intro c hc
      rcases List.mem_cons.mp hc with rfl | hc
      · exact hd
      · exact h c hc
    unfold Nat.toDigitsCore
    by_cases h0 : n / 10 = 0
    · simpa [h0] using hcons
    · simpa [h0] using ih (n / 10) _ hcons

theorem toDigitsCore_ne_nil : ∀ (fuel n : Nat) (ds : List Char),
    (0 < fuel ∨ ds ≠ []) → Nat.toDigitsCore 10 fuel n ds ≠ [] := by
  intro fuel
  induction fuel with
  | zero => intro n ds h; simpa [Nat.toDigitsCore] using h
  | succ f ih =>
    intro n ds _
    unfold Nat.toDigitsCore
    by_cases h0 : n / 10 = 0
    · simp [h0]
    · simpa [h0] using ih (n / 10) _ (Or.inr (List.cons_ne_nil _ _))

/-- The decimal string of a natural number holds digits only. -/
theorem repr_isDigit (x : Nat) : ∀ c ∈ (Nat.repr x).data, c.isDigit = true := by
  intro c hc
  exact toDigitsCore_isDigit (x + 1) x [] (by simp) c (by simpa [Nat.repr, Nat.toDigits] using hc)

theorem repr_ne_nil (x : Nat) : (Nat.repr x).data ≠ [] := by
  have := toDigitsCore_ne_nil (x + 1) x [] (Or.inl (Nat.succ_pos x))
  simpa [Nat.repr, Nat.toDigits] using this

theorem fractionMatch_digits {s : List Char} (hne : s ≠ []) (hd : ∀ c ∈ s, c.isDigit = true) :
    ∃ r, fractionMatch s = .ok r := by
  have ht : s.takeWhile Char.isDigit = s := List.takeWhile_eq_self_iff.mpr hd
  unfold fractionMatch
  simp only [ht]
  by_cases hk : trimTrailingZeros s = []
  · have hall : ∀ c ∈ s, c = '0' := by
      unfold trimTrailingZeros at hk
      rw [List.reverse_eq_nil_iff, List.dropWhile_eq_nil_iff] at hk
      intro c hc
      simpa using hk c (List.mem_reverse.mpr hc)
    cases s with
    | nil => exact absurd rfl hne
    | cons a t =>
      have ha : a = '0' := hall a (List.mem_cons_self _ _)
      subst ha
      exact ⟨['0'], by simp [hk]⟩
  · exact ⟨trimTrailingZeros s, by simp [hk]⟩

/-- Formatting an amount the router returned succeeds at every accepted scale. -/
theorem formatUnits_total {d : Nat} (h : d ≤ 256) (x : Nat) :
    ∃ q, formatUnits (some (x : Int)) d = .ok q := by
  have hx : ¬ ((x : Int) < 0) := not_lt.mpr (Int.ofNat_nonneg x)
  obtain ⟨r, hr⟩ := fractionMatch_digits
    (s := padLeftLoop (d - (Nat.repr (x % 10 ^ d)).data.length) (Nat.repr (x % 10 ^ d)).data)
    (by rw [padLeftLoop_eq]; simp [repr_ne_nil])
    (by
      rw [padLeftLoop_eq]
      intro c hc
      rcases List.mem_append.mp hc with hc | hc
      · rw [List.eq_of_mem_replicate hc]; decide
      · exact repr_isDigit _ c hc)
  have hr2 : fractionMatch
      (padLeftLoop (d - (Nat.repr (x % 10 ^ d)).length) (Nat.repr (x % 10 ^ d)).data) = .ok r := hr
  simp [formatUnits, formatFixed, getMultiplier_ok h, bigNumberFrom_multiplier, bind, Except.bind,
    pure, Except.pure, hx, hr2]

/-! ## The callback against a router -/

theorem drive_of_awaiting_nil (e : Env) (router : Router) (n : Nat) (k : Keeper)
    (h : k.awaiting = []) : drive e router n k = k := by
  cases n with
  | zero => rfl
  | succ m => simp [drive, h]

/-- Settling the awaited calls of the callback with the answers of the router
produces the events of `loopTrace`, arms the timers it names and leaves nothing
suspended. -/
theorem drive_loopFrom (e : Env) (router : Router) :
    ∀ (ps : List Pair) (n : Nat) (k : Keeper), ps.length ≤ n → k.awaiting = [] →
      (drive e router n (loopFrom e ps k)).trace
          = k.trace ++ (loopTrace e router ps).map (fun ev => (k.now, ev)) ∧
      (drive e router n (loopFrom e ps k)).timers
          = k.timers ++ (armsOf (loopTrace e router ps)).map (fun d => k.now + d) ∧
      (drive e router n (loopFrom e ps k)).awaiting = [] ∧
      (drive e router n (loopFrom e ps k)).now = k.now := by
  intro ps
  induction ps with
  | nil =>
    intro n k _ hk
    have h0 : (loopFrom e [] k).awaiting = [] := by simp [loopFrom, startKeeper, emit, hk]
    rw [drive_of_awaiting_nil e router n _ h0]
    simp [loopFrom, startKeeper, emit, loopTrace, armsOf, hk]
  | cons p rest ih =>
    intro n k hn hk
    obtain ⟨m, rfl⟩ : ∃ m, n = m + 1 := ⟨n - 1, by simp at hn; omega⟩
    have hm : rest.length ≤ m := by simp at hn; omega
    cases hp : parseUnits "1" p.tokenIn.decimals with
    | error f =>
      have h0 : (loopFrom e (p :: rest) k).awaiting = [] := by simp [loopFrom, hp, emit, hk]
      rw [drive_of_awaiting_nil e router _ _ h0]
      simp [loopFrom, hp, emit, loopTrace, armsOf, hk]
    | ok amountIn =>
      cases hr : router amountIn (route e p) with
      | error f =>
        simp [loopFrom, hp, emit, loopTrace, armsOf, hk, drive, step, resume, hr,
          drive_of_awaiting_nil]
      | ok quantityOut =>
        cases hq : quoteArgs p p.tokenIn.decimals quantityOut with
        | error f =>
          simp [loopFrom, hp, emit, loopTrace, armsOf, hk, drive, step, resume, hr, hq,
            drive_of_awaiting_nil]
        | ok args =>
          have hstep : drive e router (m + 1) (loopFrom e (p :: rest) k)
              = drive e router m (loopFrom e rest
                  (emit (.log args) { emit (.query amountIn (route e p)) k with awaiting := [] })) := by
            simp [loopFrom, hp, emit, hk, drive, step, resume, hr, hq]
          rw [hstep]
          obtain ⟨h1, h2, h3, h4⟩ := ih m
            (emit (.log args) { emit (.query amountIn (route e p)) k with awaiting := [] }) hm rfl
          refine ⟨?_, ?_, h3, ?_⟩
          · rw [h1]; simp [emit, loopTrace, hp, hr, hq]
          · rw [h2]; simp [emit, loopTrace, hp, hr, hq, armsOf]
          · rw [h4]; rfl

/-- A poll cycle from a state with a due timer and nothing suspended: the timer
fires, the events of `loopTrace` follow, and the callback is over. -/
theorem pollCycle_eq (e : Env) (router : Router) (wait : Nat) (k : Keeper) (t : Nat)
    (ts : List Nat) (ht : k.timers = t :: ts) (ha : k.awaiting = []) (hw : t ≤ k.now + wait) :
    ∃ k2, pollCycle e router wait k = some k2 ∧
      eventsSince k k2 = .fire :: loopTrace e router e.pairs ∧
      k2.timers = ts ++ (armsOf (loopTrace e router e.pairs)).map (fun d => k.now + wait + d) ∧
      k2.awaiting = [] ∧ k2.now = k.now + wait := by
  obtain ⟨h1, h2, h3, h4⟩ := drive_loopFrom e router e.pairs e.pairs.length
    (emit .fire { k with now := k.now + wait, timers := ts }) (le_refl _) ha
  refine ⟨drive e router e.pairs.length (loopFrom e e.pairs
    (emit .fire { k with now := k.now + wait, timers := ts })), ?_, ?_, ?_, ?_, ?_⟩
  · simp only [pollCycle, step, ht, List.get?_cons_zero, hw, if_true, Option.map_some',
      List.eraseIdx_cons_zero]
  · simp only [eventsSince, events]
    rw [h1]
    simp [emit, Function.comp_def]
  · simpa [emit] using h2
  · exact h3
  · simpa [emit] using h4

theorem loopTrace_cons_of (e : Env) (router : Router) (p : Pair) (rest : List Pair)
    (amountIn : Int) (quantityOut : List Nat) (args : List String)
    (hp : parseUnits "1" p.tokenIn.decimals = .ok amountIn)
    (hr : router amountIn (route e p) = .ok quantityOut)
    (hq : quoteArgs p p.tokenIn.decimals quantityOut = .ok args) :
    loopTrace e router (p :: rest)
      = .query amountIn (route e p) :: .log args :: loopTrace e router rest := by
  simp [loopTrace, hp, hr, hq]

theorem loopTrace_cons_ok (e : Env) (router : Router) (p : Pair) (rest : List Pair)
    (hd : p.tokenIn.decimals ≤ 256) (ha : Answers e router p) :
    ∃ args, QuoteCall e router p args ∧
      loopTrace e router (p :: rest)
        = .query (10 ^ p.tokenIn.decimals) (route e p) :: .log args :: loopTrace e router rest := by
  obtain ⟨amounts, hr, hlen⟩ := ha
  match amounts, hlen with
  | [a, b, c], _ =>
    obtain ⟨q, hq⟩ := formatUnits_total hd c
    refine ⟨[p.tokenIn.symbol, "=>", p.tokenOut.symbol, ":", q], ⟨[a, b, c], q, hr, ?_, rfl⟩, ?_⟩
    · simpa using hq
    · have hqa : quoteArgs p p.tokenIn.decimals [a, b, c]
          = .ok [p.tokenIn.symbol, "=>", p.tokenOut.symbol, ":", q] := by
        simp [quoteArgs, hq, bind, Except.bind, pure, Except.pure]
      simp [loopTrace, parseUnits_one hd, hr, hqa]

theorem loopTrace_cons_fail (e : Env) (router : Router) (p : Pair) (rest : List Pair)
    (hd : p.tokenIn.decimals ≤ 256) (f : Fault)
    (hr : router (10 ^ p.tokenIn.decimals) (route e p) = .error f) :
    loopTrace e router (p :: rest)
      = [.query (10 ^ p.tokenIn.decimals) (route e p), .reject f] := by
  simp [loopTrace, parseUnits_one hd, hr]

/-! ## Projections of the events of a callback -/

theorem loopTrace_cons_enough (e : Env) (router : Router) (p : Pair) (rest : List Pair)
    (hd : p.tokenIn.decimals ≤ 256) (ha : AnswersEnough e router p) :
    ∃ args, loopTrace e router (p :: rest)
        = .query (10 ^ p.tokenIn.decimals) (route e p) :: .log args :: loopTrace e router rest := by
  obtain ⟨amounts, hr, hlen⟩ := ha
  match amounts, hlen with
  | a :: b :: c :: more, _ =>
    obtain ⟨q, hq⟩ := formatUnits_total hd c
    have hqa : quoteArgs p p.tokenIn.decimals (a :: b :: c :: more)
        = .ok [p.tokenIn.symbol, "=>", p.tokenOut.symbol, ":", q] := by
      simp [quoteArgs, hq, bind, Except.bind, pure, Except.pure]
    exact ⟨_, loopTrace_cons_of e router p rest _ _ _ (parseUnits_one hd) hr hqa⟩

theorem loopTrace_queries (e : Env) (router : Router) : ∀ (ps : List Pair),
    (∀ p ∈ ps, p.tokenIn.decimals ≤ 256) → (∀ p ∈ ps, AnswersEnough e router p) →
    queriesOf (loopTrace e router ps)
      = ps.map (fun p => ((10 : Int) ^ p.tokenIn.decimals, route e p)) := by
  intro ps
  induction ps with
  | nil => intro _ _; rfl
  | cons p rest ih =>
    intro hd ha
    obtain ⟨args, heq⟩ := loopTrace_cons_enough e router p rest
      (hd p (List.mem_cons_self _ _)) (ha p (List.mem_cons_self _ _))
    rw [heq]
    simp [queriesOf, ih (fun q hq => hd q (List.mem_cons_of_mem _ hq))
      (fun q hq => ha q (List.mem_cons_of_mem _ hq))]

theorem loopTrace_logs (e : Env) (router : Router) : ∀ (ps : List Pair),
    (∀ p ∈ ps, p.tokenIn.decimals ≤ 256) → (∀ p ∈ ps, Answers e router p) →
    ∃ calls, List.Forall₂ (QuoteCall e router) ps calls ∧
      logsOf (loopTrace e router ps) = calls ++ [[separator]] := by
  intro ps
  induction ps with
  | nil => intro _ _; exact ⟨[], List.Forall₂.nil, rfl⟩
  | cons p rest ih =>
    intro hd ha
    obtain ⟨args, hargs, heq⟩ := loopTrace_cons_ok e router p rest
      (hd p (List.mem_cons_self _ _)) (ha p (List.mem_cons_self _ _))
    obtain ⟨calls, hcalls, hlogs⟩ := ih (fun q hq => hd q (List.mem_cons_of_mem _ hq))
      (fun q hq => ha q (List.mem_cons_of_mem _ hq))
    refine ⟨args :: calls, List.Forall₂.cons hargs hcalls, ?_⟩
    rw [heq]
    simp [logsOf, hlogs]

theorem loopTrace_arms (e : Env) (router : Router) : ∀ (ps : List Pair),
    (∀ p ∈ ps, p.tokenIn.decimals ≤ 256) → (∀ p ∈ ps, Answers e router p) →
    armsOf (loopTrace e router ps) = [3000] := by
  intro ps
  induction ps with
  | nil => intro _ _; rfl
  | cons p rest ih =>
    intro hd ha
    obtain ⟨args, _, heq⟩ := loopTrace_cons_ok e router p rest
      (hd p (List.mem_cons_self _ _)) (ha p (List.mem_cons_self _ _))
    rw [heq]
    simp [armsOf, ih (fun q hq => hd q (List.mem_cons_of_mem _ hq))
      (fun q hq => ha q (List.mem_cons_of_mem _ hq))]

/-- Events of a callback whose pair after `pre` gets a rejected call. -/
theorem loopTrace_fail (e : Env) (router : Router) (p : Pair) (post : List Pair) (f : Fault)
    (hp : p.tokenIn.decimals ≤ 256)
    (hr : router (10 ^ p.tokenIn.decimals) (route e p) = .error f) : ∀ (pre : List Pair),
    (∀ q ∈ pre, q.tokenIn.decimals ≤ 256) → (∀ q ∈ pre, Answers e router q) →
    queriesOf (loopTrace e router (pre ++ p :: post))
      = (pre ++ [p]).map (fun q => ((10 : Int) ^ q.tokenIn.decimals, route e q)) ∧
    (∃ calls, List.Forall₂ (QuoteCall e router) pre calls ∧
      logsOf (loopTrace e router (pre ++ p :: post)) = calls) ∧
    armsOf (loopTrace e router (pre ++ p :: post)) = [] ∧
    (loopTrace e router (pre ++ p :: post)).getLast? = some (.reject f) := by
  intro pre
  induction pre with
  | nil =>
    intro _ _
    rw [List.nil_append, loopTrace_cons_fail e router p post hp f hr]
    exact ⟨rfl, ⟨[], List.Forall₂.nil, rfl⟩, rfl, rfl⟩
  | cons q rest ih =>
    intro hd ha
    obtain ⟨args, hargs, heq⟩ := loopTrace_cons_ok e router q (rest ++ p :: post)
      (hd q (List.mem_cons_self _ _)) (ha q (List.mem_cons_self _ _))
    obtain ⟨h1, ⟨calls, hcalls, hlogs⟩, h3, h4⟩ :=
      ih (fun x hx => hd x (List.mem_cons_of_mem _ hx))
        (fun x hx => ha x (List.mem_cons_of_mem _ hx))
    rw [List.cons_append, heq]
    refine ⟨?_, ⟨args :: calls, List.Forall₂.cons hargs hcalls, ?_⟩, ?_, ?_⟩
    · simp [queriesOf, h1]
    · simp [logsOf, hlogs]
    · simp [armsOf, h3]
    · cases hl : loopTrace e router (rest ++ p :: post) with
      | nil => rw [hl] at h4; simp at h4
      | cons x xs => rw [hl] at h4; simpa [List.getLast?_cons_cons] using h4

theorem getLast?_cons_of_getLast? {α : Type} (x : α) (xs : List α) (y : α)
    (h : xs.getLast? = some y) : (x :: xs).getLast? = some y := by
  cases xs with
  | nil => simp at h
  | cons z zs => simpa [List.getLast?_cons_cons] using h

theorem loopTrace_last (e : Env) (router : Router) : ∀ (ps : List Pair),
    (∀ p ∈ ps, p.tokenIn.decimals ≤ 256) → (∀ p ∈ ps, Answers e router p) →
    (loopTrace e router ps).getLast? = some (.arm 3000) := by
  intro ps
  induction ps with
  | nil => intro _ _; rfl
  | cons p rest ih =>
    intro hd ha
    obtain ⟨args, _, heq⟩ := loopTrace_cons_ok e router p rest
      (hd p (List.mem_cons_self _ _)) (ha p (List.mem_cons_self _ _))
    rw [heq]
    exact getLast?_cons_of_getLast? _ _ _ (getLast?_cons_of_getLast? _ _ _
      (ih (fun q hq => hd q (List.mem_cons_of_mem _ hq))
        (fun q hq => ha q (List.mem_cons_of_mem _ hq))))

theorem quoteCalls_length (e : Env) (router : Router) : ∀ (ps : List Pair)
    (calls : List (List String)), List.Forall₂ (QuoteCall e router) ps calls →
    ∀ c ∈ calls, c.length = 5 := by
  intro ps calls h
  induction h with
  | nil => intro c hc; cases hc
  | @cons p args ps calls hcall _ ih =>
    intro c hc
    rcases List.mem_cons.mp hc with rfl | hc
    · obtain ⟨_, _, _, _, rfl⟩ := hcall
      rfl
    · exact ih c hc

/-! ## Lemmas on the console -/

theorem formatScan_plain : ∀ (cs : List Char) (rest : List String), '%' ∉ cs →
    formatScan cs rest = some (cs, rest) := by
  intro cs
  induction cs with
  | nil => intro rest _; rfl
  | cons c cs ih =>
    intro rest h
    have hc : c ≠ '%' := fun hc => h (hc ▸ List.mem_cons_self _ _)
    have hcs : '%' ∉ cs := fun hm => h (List.mem_cons_of_mem _ hm)
    rw [formatScan]
    · simp [ih rest hcs]
    · intro n cs2 hcontra _
      exact hc hcontra

/-- Text of the line of a pair whose first symbol holds no percent sign. -/
theorem consoleLog_quote (a b q : String) (h : '%' ∉ a.data) :
    consoleLog [a, "=>", b, ":", q] = some (a ++ " => " ++ b ++ " : " ++ q) := by
  simp only [consoleLog, formatScan_plain a.data _ h, Option.map_some', Option.some.injEq]
  apply String.ext
  simp [String.join]

theorem render_calls (e : Env) (router : Router) : ∀ (ps : List Pair) (calls : List (List String)),
    List.Forall₂ (QuoteCall e router) ps calls → (∀ p ∈ ps, '%' ∉ p.tokenIn.symbol.data) →
    ∃ lines, List.Forall₂ (QuoteLine e router) ps lines ∧
      renderAll (calls ++ [[separator]]) = some (lines ++ [separator]) := by
  intro ps calls h
  induction h with
  | nil => intro _; exact ⟨[], List.Forall₂.nil, rfl⟩
  | @cons p args ps calls hcall _ ih =>
    intro hs
    obtain ⟨lines, hlines, hrender⟩ := ih (fun q hq => hs q (List.mem_cons_of_mem _ hq))
    obtain ⟨amounts, q, hr, hq, rfl⟩ := hcall
    refine ⟨(p.tokenIn.symbol ++ " => " ++ p.tokenOut.symbol ++ " : " ++ q) :: lines,
      List.Forall₂.cons ⟨amounts, q, hr, hq, rfl⟩ hlines, ?_⟩
    rw [List.cons_append, renderAll, consoleLog_quote _ _ _ (hs p (List.mem_cons_self _ _)), hrender]
    rfl

theorem quoteArgs_shape (p : Pair) (scale : Nat) (quantityOut : List Nat) (args : List String)
    (h : quoteArgs p scale quantityOut = .ok args) :
    ∃ q, args = [p.tokenIn.symbol, "=>", p.tokenOut.symbol, ":", q] := by
  unfold quoteArgs at h
  generalize formatUnits (Option.map Int.ofNat (quantityOut.get? 2)) scale = r at h
  cases r with
  | error f => simp [bind, Except.bind] at h
  | ok q =>
    simp only [bind, Except.bind, pure, Except.pure, Except.ok.injEq] at h
    exact ⟨q, h.symm⟩

theorem linesOf_cons_log (args : List String) (es : List Event) (l : String) (ls : List String)
    (hc : consoleLog args = some l) (hl : linesOf es = some ls) :
    linesOf (.fire :: .query amountIn path :: .log args :: es) = some (l :: ls) := by
  have h : linesOf (.fire :: .query amountIn path :: .log args :: es)
      = (match consoleLog args, linesOf es with
        | some l, some ls => some (l :: ls)
        | _, _ => none) := rfl
  rw [h, hc, hl]

/-- Every `console.log` call of a callback has a text when no first symbol holds
a percent sign. -/
theorem linesOf_loopTrace (e : Env) (router : Router) : ∀ (ps : List Pair),
    (∀ p ∈ ps, '%' ∉ p.tokenIn.symbol.data) → ∃ ls, linesOf (loopTrace e router ps) = some ls := by
  intro ps
  induction ps with
  | nil => intro _; exact ⟨[separator], rfl⟩
  | cons p rest ih =>
    intro hs
    obtain ⟨ls, hls⟩ := ih (fun q hq => hs q (List.mem_cons_of_mem _ hq))
    cases hp : parseUnits "1" p.tokenIn.decimals with
    | error f => exact ⟨[], by simp [loopTrace, hp, linesOf, logsOf, renderAll]⟩
    | ok amountIn =>
      cases hr : router amountIn (route e p) with
      | error f => exact ⟨[], by simp [loopTrace, hp, hr, linesOf, logsOf, renderAll]⟩
      | ok quantityOut =>
        cases hq : quoteArgs p p.tokenIn.decimals quantityOut with
        | error f => exact ⟨[], by simp [loopTrace, hp, hr, hq, linesOf, logsOf, renderAll]⟩
        | ok args =>
          have hargs := quoteArgs_shape p p.tokenIn.decimals quantityOut args hq
          obtain ⟨q, rfl⟩ := hargs
          refine ⟨(p.tokenIn.symbol ++ " => " ++ p.tokenOut.symbol ++ " : " ++ q) :: ls, ?_⟩
          simp only [linesOf] at hls
          simp only [loopTrace, hp, hr, hq, linesOf, logsOf, renderAll,
            consoleLog_quote _ _ _ (hs p (List.mem_cons_self _ _)), hls]

/-- Once no timer is armed and no callback is suspended, no step adds an event. -/
theorem run_halted (e : Env) : ∀ (ls : List Label) (k : Keeper),
    k.timers = [] → k.awaiting = [] →
    (run e ls k).trace = k.trace ∧ (run e ls k).timers = [] ∧ (run e ls k).awaiting = [] := by
  intro ls
  induction ls with
  | nil => intro k ht ha; exact ⟨rfl, ht, ha⟩
  | cons l ls ih =>
    intro k ht ha
    cases l with
    | tick d => simpa [run, step] using ih { k with now := k.now + d } ht ha
    | fire i => simpa [run, step, ht] using ih k ht ha
    | resolve i resp => simpa [run, step, ha] using ih k ht ha

/-! ## Invariant of the event loop -/

theorem eq_singleton_of_mem {α : Type} {l : List α} {x : α} (hm : x ∈ l) (hl : l.length ≤ 1) :
    l = [x] := by
  match l, hm, hl with
  | [a], hm, _ =>
    have : x = a := by simpa using hm
    rw [this]
  | a :: b :: c, _, hl => simp at hl

theorem split_snoc {α : Type} (tr : List α) (x y : α) (pre post : List α)
    (h : tr ++ [x] = pre ++ y :: post) :
    (post = [] ∧ pre = tr ∧ y = x) ∨ (∃ post2, post = post2 ++ [x] ∧ tr = pre ++ y :: post2) := by
  rcases List.eq_nil_or_concat post with hp | ⟨post2, z, hp⟩
  · subst hp
    have h2 : tr ++ [x] = pre ++ [y] := h
    obtain ⟨h3, h4⟩ := List.append_inj' h2 rfl
    exact Or.inl ⟨rfl, h3.symm, (List.cons.inj h4).1.symm⟩
  · subst hp
    have h2 : tr ++ [x] = (pre ++ y :: post2) ++ [z] := by
      rw [h]; simp
    obtain ⟨h3, h4⟩ := List.append_inj' h2 rfl
    have hz : x = z := (List.cons.inj h4).1
    subst hz
    exact Or.inr ⟨post2, by simp, h3⟩

theorem TraceInv.tick {t0 now : Nat} {tr : List (Nat × Event)} (h : TraceInv t0 now tr) (d : Nat) :
    TraceInv t0 (now + d) tr :=
  ⟨h.fires, h.arms, h.first, fun x hx => Nat.le_trans (h.mono x hx) (Nat.le_add_right _ _)⟩

theorem TraceInv.snoc {t0 now : Nat} {tr : List (Nat × Event)} (h : TraceInv t0 now tr)
    (ev : Event)
    (hfire : ev = .fire → ∃ pre2 t1, tr = pre2 ++ [(t1, Event.arm 3000)] ∧ t1 + 3000 ≤ now)
    (harm : ∀ d, ev = .arm d → d = 3000 ∧ ∃ pre2, tr = pre2 ++ [(now, Event.log [separator])])
    (hnow : t0 + 3000 ≤ now) (hlen : 2 ≤ tr.length ∨ ev = .fire) :
    TraceInv t0 now (tr ++ [(now, ev)]) := by
  refine ⟨?_, ?_, ?_, ?_⟩
  · intro pre post t hsplit
    rcases split_snoc tr _ _ pre post hsplit with ⟨_, hpre, hx⟩ | ⟨post2, _, htr⟩
    · obtain ⟨ht, hev⟩ := Prod.mk.inj hx
      obtain ⟨pre2, t1, h1, h2⟩ := hfire hev.symm
      exact ⟨pre2, t1, by rw [hpre, h1], by omega⟩
    · exact h.fires pre post2 t htr
  · intro pre post t d hsplit
    rcases split_snoc tr _ _ pre post hsplit with ⟨_, hpre, hx⟩ | ⟨post2, _, htr⟩
    · obtain ⟨ht, hev⟩ := Prod.mk.inj hx
      obtain ⟨hd, pre2, h1⟩ := harm d hev.symm
      exact ⟨hd, Or.inr ⟨pre2, by rw [hpre, h1, ht]⟩⟩
    · exact h.arms pre post2 t d htr
  · obtain ⟨rest, hrest, hbound, hhead⟩ := h.first
    refine ⟨rest ++ [(now, ev)], by rw [hrest]; rfl, ?_, ?_⟩
    · intro x hx
      rcases List.mem_append.mp hx with hx | hx
      · exact hbound x hx
      · simp only [List.mem_singleton] at hx
        subst hx
        exact hnow
    · rcases hhead with hnil | ⟨t, rest2, hr2⟩
      · subst hnil
        rcases hlen with hlen | hev
        · rw [hrest] at hlen; simp at hlen
        · exact Or.inr ⟨now, [], by rw [hev]; rfl⟩
      · exact Or.inr ⟨t, rest2 ++ [(now, ev)], by rw [hr2]; rfl⟩
  · intro x hx
    rcases List.mem_append.mp hx with hx | hx
    · exact h.mono x hx
    · simp only [List.mem_singleton] at hx
      subst hx
      exact le_refl _

/-- The callback, entered at the loop test from a state with no timer armed and
nothing suspended, leaves a state that satisfies both invariants. -/
theorem loopFrom_inv (e : Env) (t0 : Nat) (ps : List Pair) (k : Keeper)
    (ht : k.timers = []) (ha : k.awaiting = []) (htr : TraceInv t0 k.now k.trace)
    (hlen : 2 ≤ k.trace.length) (hnow : t0 + 3000 ≤ k.now) :
    TraceInv t0 (loopFrom e ps k).now (loopFrom e ps k).trace ∧ StateInv (loopFrom e ps k) := by
  cases ps with
  | nil =>
    have h1 : TraceInv t0 k.now (k.trace ++ [(k.now, Event.log [separator])]) :=
      htr.snoc _ (by intro h; cases h) (by intro d h; cases h) hnow (Or.inl hlen)
    have h2 : TraceInv t0 k.now
        ((k.trace ++ [(k.now, Event.log [separator])]) ++ [(k.now, Event.arm 3000)]) :=
      h1.snoc _ (by intro h; cases h)
        (by intro d h; cases h; exact ⟨rfl, k.trace, rfl⟩) hnow
        (Or.inl (by simp; omega))
    refine ⟨by simpa [loopFrom, startKeeper, emit] using h2, ?_, ?_, ?_⟩
    · simp [loopFrom, startKeeper, emit, ht, ha]
    · intro t hmem
      have ht2 : t = k.now + 3000 := by simpa [loopFrom, startKeeper, emit, ht] using hmem
      exact ⟨k.trace ++ [(k.now, Event.log [separator])], k.now,
        by simp [loopFrom, startKeeper, emit], ht2⟩
    · intro _
      simp [loopFrom, startKeeper, emit]
  | cons p rest =>
    cases hp : parseUnits "1" p.tokenIn.decimals with
    | error f =>
      have h1 : TraceInv t0 k.now (k.trace ++ [(k.now, Event.reject f)]) :=
        htr.snoc _ (by intro h; cases h) (by intro d h; cases h) hnow (Or.inl hlen)
      refine ⟨by simpa [loopFrom, hp, emit] using h1, ?_, ?_, ?_⟩
      · simp [loopFrom, hp, emit, ht, ha]
      · intro t hmem
        simp [loopFrom, hp, emit, ht] at hmem
      · intro _
        simp [loopFrom, hp, emit]
        omega
    | ok amountIn =>
      have h1 : TraceInv t0 k.now (k.trace ++ [(k.now, Event.query amountIn (route e p))]) :=
        htr.snoc _ (by intro h; cases h) (by intro d h; cases h) hnow (Or.inl hlen)
      refine ⟨by simpa [loopFrom, hp, emit] using h1, ?_, ?_, ?_⟩
      · simp [loopFrom, hp, emit, ht, ha]
      · intro t hmem
        simp [loopFrom, hp, emit, ht] at hmem
      · intro _
        simp [loopFrom, hp, emit]
        omega

/-- The last event of a trace that starts idle is no older than `t0`. -/
theorem StartsIdle.last_ge {t0 : Nat} {tr pre : List (Nat × Event)} {x : Nat × Event}
    (h : StartsIdle t0 tr) (hx : tr = pre ++ [x]) : t0 ≤ x.1 := by
  obtain ⟨rest, hrest, hbound, _⟩ := h
  have hmem : x ∈ tr := by rw [hx]; simp
  rw [hrest] at hmem
  rcases List.mem_cons.mp hmem with h1 | h1
  · rw [h1]
  · exact Nat.le_trans (Nat.le_add_right _ _) (hbound x h1)

/-- A trace that starts idle and has two events or more reaches `t0 + 3000`. -/
theorem TraceInv.now_ge {t0 now : Nat} {tr : List (Nat × Event)} (h : TraceInv t0 now tr)
    (hlen : 2 ≤ tr.length) : t0 + 3000 ≤ now := by
  obtain ⟨rest, hrest, hbound, _⟩ := h.first
  cases rest with
  | nil => rw [hrest] at hlen; simp at hlen
  | cons y ys =>
    have h1 := hbound y (List.mem_cons_self _ _)
    have h2 := h.mono y (by rw [hrest]; simp)
    omega

/-- Both invariants hold in every reachable state. -/
theorem reachable_inv (e : Env) (t0 : Nat) (k : Keeper) (h : Reachable e t0 k) :
    TraceInv t0 k.now k.trace ∧ StateInv k := by
  induction h with
  | boot =>
    refine ⟨⟨?_, ?_, ?_, ?_⟩, ⟨?_, ?_, ?_⟩⟩
    · intro pre post t hsplit
      have h1 : [(t0, Event.arm 3000)] = pre ++ (t, Event.fire) :: post := hsplit
      cases pre with
      | nil => simp at h1
      | cons a as => simp at h1
    · intro pre post t d hsplit
      have h1 : [(t0, Event.arm 3000)] = pre ++ (t, Event.arm d) :: post := hsplit
      cases pre with
      | nil =>
        simp at h1
        exact ⟨h1.1.2.symm, Or.inl rfl⟩
      | cons a as => simp at h1
    · refine ⟨[], rfl, ?_, Or.inl rfl⟩
      intro x hx
      cases hx
    · intro x hx
      have h1 : x ∈ [(t0, Event.arm 3000)] := hx
      simp only [List.mem_singleton] at h1
      subst h1
      exact le_refl _
    · simp [boot, startKeeper, emit]
    · intro t ht
      exact ⟨[], t0, rfl, by simpa [boot, startKeeper, emit] using ht⟩
    · intro hne
      simp [boot, startKeeper, emit] at hne
  | @step k k2 l _ hstep ih =>
    obtain ⟨htr, hst⟩ := ih
    cases l with
    | tick d =>
      simp only [step, Option.some.injEq] at hstep
      subst hstep
      exact ⟨htr.tick d, ⟨hst.one, hst.armed, hst.busy⟩⟩
    | fire i =>
      simp only [step, List.get?_eq_getElem?] at hstep
      cases hget : k.timers[i]? with
      | none => simp [hget] at hstep
      | some t =>
        simp only [hget] at hstep
        by_cases hdue : t ≤ k.now
        · simp only [hdue, if_true, Option.some.injEq] at hstep
          subst hstep
          have hmem : t ∈ k.timers := List.getElem?_mem hget
          have hone := hst.one
          have htimers : k.timers = [t] := eq_singleton_of_mem hmem (by omega)
          have haw : k.awaiting = [] := by
            rw [htimers] at hone
            simpa using hone
          have hi : k.timers.eraseIdx i = [] := by
            rw [htimers] at hget ⊢
            cases i with
            | zero => rfl
            | succ j => simp at hget
          obtain ⟨pre, t1, hlast, ht1⟩ := hst.armed t hmem
          have hge : t0 ≤ t1 := htr.first.last_ge hlast
          have h1 : TraceInv t0 k.now (k.trace ++ [(k.now, Event.fire)]) :=
            htr.snoc _ (fun _ => ⟨pre, t1, hlast, by omega⟩) (by intro d h; cases h)
              (by omega) (Or.inr rfl)
          rw [hi]
          exact loopFrom_inv e t0 e.pairs _ rfl haw (by simpa [emit] using h1)
            (by simp [emit, hlast]) (by simp [emit]; omega)
        · simp [hdue] at hstep
    | resolve i resp =>
      simp only [step, List.get?_eq_getElem?] at hstep
      cases hget : k.awaiting[i]? with
      | none => simp [hget] at hstep
      | some fr =>
        simp only [hget, Option.some.injEq] at hstep
        subst hstep
        have hmem : fr ∈ k.awaiting := List.getElem?_mem hget
        have hone := hst.one
        have haw : k.awaiting = [fr] := eq_singleton_of_mem hmem (by omega)
        have htimers : k.timers = [] := by
          rw [haw] at hone
          have : k.timers.length = 0 := by simpa using hone
          exact List.eq_nil_of_length_eq_zero this
        have hi : k.awaiting.eraseIdx i = [] := by
          rw [haw] at hget ⊢
          cases i with
          | zero => rfl
          | succ j => simp at hget
        have hlen : 2 ≤ k.trace.length := hst.busy (by rw [haw]; simp)
        have hnow : t0 + 3000 ≤ k.now := htr.now_ge hlen
        rw [hi]
        have hreject : ∀ f, TraceInv t0 (emit (.reject f) { k with awaiting := [] }).now
              (emit (.reject f) { k with awaiting := [] }).trace ∧
            StateInv (emit (.reject f) { k with awaiting := [] }) := by
          intro f
          have h1 : TraceInv t0 k.now (k.trace ++ [(k.now, Event.reject f)]) :=
            htr.snoc _ (by intro h; cases h) (by intro d h; cases h) hnow (Or.inl hlen)
          refine ⟨by simpa [emit] using h1, ?_, ?_, ?_⟩
          · simp [emit, htimers]
          · intro t hmem2
            simp [emit, htimers] at hmem2
          · intro hne
            simp [emit] at hne
        cases resp with
        | error f => simpa [resume] using hreject f
        | ok quantityOut =>
          cases hq : quoteArgs fr.pair fr.pair.tokenIn.decimals quantityOut with
          | error f => simpa [resume, hq] using hreject f
          | ok args =>
            have h1 : TraceInv t0 k.now (k.trace ++ [(k.now, Event.log args)]) :=
              htr.snoc _ (by intro h; cases h) (by intro d h; cases h) hnow (Or.inl hlen)
            have h2 := loopFrom_inv e t0 fr.rest (emit (.log args) { k with awaiting := [] })
              (by simpa [emit] using htimers) rfl (by simpa [emit] using h1)
              (by simp [emit]; omega) (by simpa [emit] using hnow)
            simpa [resume, hq] using h2

/-- Running steps from a reachable state gives a reachable state. -/
theorem reachable_run (e : Env) (t0 : Nat) : ∀ (ls : List Label) (k : Keeper),
    Reachable e t0 k → Reachable e t0 (run e ls k) := by
  intro ls
  induction ls with
  | nil => intro k h; exact h
  | cons l ls ih =>
    intro k h
    cases hs : step e k l with
    | none => simpa [run, hs] using ih k h
    | some k2 => simpa [run, hs] using ih k2 (Reachable.step l h hs)

/-! ## Claims -/

/-- C1, counterexample: a router that answers every call does not make the cycle
issue one query per pair. For a pair whose `tokenIn.decimals` is 257 the unit
conversion throws and no query is issued at all; and against a router that answers
with two amounts, `quantityOut[2]` is `undefined`, formatting it throws, and the
cycle over the two configured pairs issues the first query only. -/
theorem cycle_queries_counterexample :
    ((∀ p ∈ wideEnv.pairs, Answers wideEnv steadyRouter p) ∧
      wideEnv.pairs.length = 1 ∧
      (pollCycle wideEnv steadyRouter 3000 (boot 0)).map
        (fun k2 => queriesOf (eventsSince (boot 0) k2)) = some []) ∧
    ((∀ amountIn path, shortRouter amountIn path = .ok [1000000, 990000]) ∧
      (env sampleAddresses).pairs.length = 2 ∧
      (pollCycle (env sampleAddresses) shortRouter 3000 (boot 0)).map
        (fun k2 => eventsSince (boot 0) k2)
        = some [.fire, .query 1000000 ["0xUSDT", "0xWETH", "0xUSDC"],
            .reject .invalidBigNumber] ∧
      (pollCycle (env sampleAddresses) shortRouter 3000 (boot 0)).map
        (fun k2 => queriesOf (eventsSince (boot 0) k2))
        = some [(1000000, ["0xUSDT", "0xWETH", "0xUSDC"])]) := by
  refine ⟨⟨?_, rfl, by rfl⟩, ⟨fun _ _ => rfl, rfl, by rfl, by rfl⟩⟩
  intro p hp
  simp only [wideEnv, List.mem_singleton] at hp
  subst hp
  exact ⟨_, rfl, rfl⟩

/-- C1, amended: for every pair list whose `tokenIn.decimals` are at most 256 and
every router that answers each query with at least three amounts (one per address
of the route, or more), one poll cycle issues exactly one `getAmountsOut` query per
pair, in the order of the list, with route
`[tokenIn.address, WETH_ADDRESS, tokenOut.address]` and input amount
`10 ^ tokenIn.decimals`, which is what `parseUnits("1", tokenIn.decimals)` returns. -/
theorem cycle_queries (e : Env) (router : Router) (wait : Nat) (k : Keeper) (t : Nat)
    (ht : k.timers = [t]) (ha : k.awaiting = []) (hw : t ≤ k.now + wait)
    (hd : ∀ p ∈ e.pairs, p.tokenIn.decimals ≤ 256)
    (hr : ∀ p ∈ e.pairs, ∃ amounts,
      router (10 ^ p.tokenIn.decimals) [p.tokenIn.address, e.WETH_ADDRESS, p.tokenOut.address]
        = .ok amounts ∧ 3 ≤ amounts.length) :
    ∃ k2, pollCycle e router wait k = some k2 ∧
      queriesOf (eventsSince k k2)
        = e.pairs.map (fun p =>
            ((10 : Int) ^ p.tokenIn.decimals,
              [p.tokenIn.address, e.WETH_ADDRESS, p.tokenOut.address])) ∧
      ∀ p ∈ e.pairs, parseUnits "1" p.tokenIn.decimals = .ok ((10 : Int) ^ p.tokenIn.decimals) := by
  obtain ⟨k2, hk2, hev, _⟩ := pollCycle_eq e router wait k t [] ht ha hw
  refine ⟨k2, hk2, ?_, fun p hp => parseUnits_one (hd p hp)⟩
  rw [hev]
  exact loopTrace_queries e router e.pairs hd hr

/-- C1, witness: the configured pairs against a router that answers every call
with three amounts. -/
theorem cycle_queries_witness :
    ∃ k2, pollCycle (env sampleAddresses) steadyRouter 3000 (boot 0) = some k2 ∧
      queriesOf (eventsSince (boot 0) k2)
        = (env sampleAddresses).pairs.map (fun p =>
            ((10 : Int) ^ p.tokenIn.decimals,
              [p.tokenIn.address, (env sampleAddresses).WETH_ADDRESS, p.tokenOut.address])) ∧
      ∀ p ∈ (env sampleAddresses).pairs,
        parseUnits "1" p.tokenIn.decimals = .ok ((10 : Int) ^ p.tokenIn.decimals) :=
  cycle_queries (env sampleAddresses) steadyRouter 3000 (boot 0) 3000 rfl rfl (by decide)
    (by decide)
    (by
      intro p hp
      simp only [env, pairs, List.mem_cons, List.mem_singleton, List.not_mem_nil, or_false] at hp
      rcases hp with rfl | rfl <;> exact ⟨_, rfl, by decide⟩)

/-- C2, counterexample: against a router that answers every call with three
amounts, the cycle for a pair with `tokenIn.decimals` 257 prints nothing, not even
the separator, and the cycle for a pair whose `tokenIn.symbol` is `%s` prints
`=> USDC : 0.99` where the claim has `%s => USDC : 0.99`. -/
theorem cycle_output_counterexample :
    ((∀ p ∈ wideEnv.pairs, Answers wideEnv steadyRouter p) ∧
      (pollCycle wideEnv steadyRouter 3000 (boot 0)).map
        (fun k2 => linesOf (eventsSince (boot 0) k2)) = some (some [])) ∧
    ((∀ p ∈ percentEnv.pairs, Answers percentEnv steadyRouter p) ∧
      (pollCycle percentEnv steadyRouter 3000 (boot 0)).map
        (fun k2 => linesOf (eventsSince (boot 0) k2))
          = some (some ["=> USDC : 0.99", "-----------------------"])) := by
  refine ⟨⟨?_, by rfl⟩, ⟨?_, by rfl⟩⟩
  · intro p hp
    simp only [wideEnv, List.mem_singleton] at hp
    subst hp
    exact ⟨_, rfl, rfl⟩
  · intro p hp
    simp only [percentEnv, List.mem_singleton] at hp
    subst hp
    exact ⟨_, rfl, rfl⟩

/-- C2, amended: for every pair list (the empty one included) whose
`tokenIn.decimals` are at most 256 and whose `tokenIn.symbol`s hold no percent
sign, and every router that answers each query with one amount per route address
(three amounts), the console output of one poll cycle is exactly: for each pair in
order, one line `<tokenIn.symbol> => <tokenOut.symbol> : <quote>`, the quote being
the final entry of that pair's response formatted at scale `tokenIn.decimals`,
followed by exactly one separator line; for the empty pair list it is the separator
line alone. -/
theorem cycle_output (e : Env) (router : Router) (wait : Nat) (k : Keeper) (t : Nat)
    (ht : k.timers = [t]) (ha : k.awaiting = []) (hw : t ≤ k.now + wait)
    (hd : ∀ p ∈ e.pairs, p.tokenIn.decimals ≤ 256)
    (hs : ∀ p ∈ e.pairs, '%' ∉ p.tokenIn.symbol.data)
    (hr : ∀ p ∈ e.pairs, Answers e router p) :
    ∃ k2 lines, pollCycle e router wait k = some k2 ∧
      List.Forall₂ (QuoteLine e router) e.pairs lines ∧
      linesOf (eventsSince k k2) = some (lines ++ ["-----------------------"]) ∧
      (e.pairs = [] → linesOf (eventsSince k k2) = some ["-----------------------"]) := by
  obtain ⟨k2, hk2, hev, _⟩ := pollCycle_eq e router wait k t [] ht ha hw
  obtain ⟨calls, hcalls, hlogs⟩ := loopTrace_logs e router e.pairs hd hr
  obtain ⟨lines, hlines, hrender⟩ := render_calls e router e.pairs calls hcalls hs
  have hout : linesOf (eventsSince k k2) = some (lines ++ ["-----------------------"]) := by
    rw [hev]
    simp only [linesOf, logsOf, hlogs]
    exact hrender
  refine ⟨k2, lines, hk2, hlines, hout, ?_⟩
  intro hnil
  rw [hnil] at hlines
  cases hlines
  exact hout

/-- C2, witness: the configured pairs and the empty pair list against a router
that answers every call. -/
theorem cycle_output_witness :
    (∃ k2 lines, pollCycle (env sampleAddresses) steadyRouter 3000 (boot 0) = some k2 ∧
      List.Forall₂ (QuoteLine (env sampleAddresses) steadyRouter) (env sampleAddresses).pairs lines ∧
      linesOf (eventsSince (boot 0) k2) = some (lines ++ ["-----------------------"]) ∧
      ((env sampleAddresses).pairs = [] →
        linesOf (eventsSince (boot 0) k2) = some ["-----------------------"])) ∧
    (∃ k2 lines, pollCycle emptyEnv steadyRouter 3000 (boot 0) = some k2 ∧
      List.Forall₂ (QuoteLine emptyEnv steadyRouter) emptyEnv.pairs lines ∧
      linesOf (eventsSince (boot 0) k2) = some (lines ++ ["-----------------------"]) ∧
      (emptyEnv.pairs = [] → linesOf (eventsSince (boot 0) k2) = some ["-----------------------"])) :=
  ⟨cycle_output (env sampleAddresses) steadyRouter 3000 (boot 0) 3000 rfl rfl (by decide)
      (by decide) (by decide)
      (by
        intro p hp
        simp only [env, pairs, List.mem_cons, List.mem_singleton, List.not_mem_nil, or_false] at hp
        rcases hp with rfl | rfl <;> exact ⟨_, rfl, rfl⟩),
    cycle_output emptyEnv steadyRouter 3000 (boot 0) 3000 rfl rfl (by decide)
      (by intro p hp; cases hp) (by intro p hp; cases hp) (by intro p hp; cases hp)⟩

/-- C3: with the configured registry `[(USDT,USDC), (USDC,USDT)]`, for every router
whose response to the query USDT, WETH, USDC with input `1_000_000` has three
amounts ending in `990_000`, the line emitted for that pair, the first of the
cycle, is `USDT => USDC : 0.99`. -/
theorem scenario_line (a : Addresses) (router : Router) (amounts : List Nat) (wait : Nat)
    (k : Keeper) (t : Nat)
    (ht : k.timers = [t]) (ha : k.awaiting = []) (hw : t ≤ k.now + wait)
    (hr : router 1000000 [a.USDT_ADDRESS, a.WETH_ADDRESS, a.USDC_ADDRESS] = .ok amounts)
    (hlen : amounts.length = 3) (hlast : amounts.getLast? = some 990000) :
    ∃ k2 more, pollCycle (env a) router wait k = some k2 ∧
      linesOf (eventsSince k k2) = some ("USDT => USDC : 0.99" :: more) := by
  obtain ⟨k2, hk2, hev, _⟩ := pollCycle_eq (env a) router wait k t [] ht ha hw
  obtain ⟨more, hmore⟩ := linesOf_loopTrace (env a) router [{ tokenIn := USDC a, tokenOut := USDT a }]
    (by
      intro p hp
      simp only [List.mem_singleton] at hp
      subst hp
      show '%' ∉ "USDC".data
      decide)
  have hz : amounts.get? 2 = some 990000 := by
    match amounts, hlen, hlast with
    | [x, y, z], _, hz => simpa using hz
  have hp : parseUnits "1" (USDT a).decimals = .ok 1000000 := by
    show parseUnits "1" 6 = _
    rfl
  have hf : formatUnits (some (Int.ofNat 990000)) 6 = .ok "0.99" := by rfl
  have hq : quoteArgs { tokenIn := USDT a, tokenOut := USDC a } (USDT a).decimals amounts
      = .ok ["USDT", "=>", "USDC", ":", "0.99"] := by
    unfold quoteArgs
    rw [hz]
    show (formatUnits (some (Int.ofNat 990000)) 6 >>= fun quote => _) = _
    rw [hf]
    rfl
  have hc : consoleLog ["USDT", "=>", "USDC", ":", "0.99"] = some "USDT => USDC : 0.99" := by rfl
  have hcons := loopTrace_cons_of (env a) router { tokenIn := USDT a, tokenOut := USDC a }
    [{ tokenIn := USDC a, tokenOut := USDT a }] 1000000 amounts _ hp hr hq
  refine ⟨k2, more, hk2, ?_⟩
  rw [hev]
  show linesOf (.fire :: loopTrace (env a) router
    [{ tokenIn := USDT a, tokenOut := USDC a }, { tokenIn := USDC a, tokenOut := USDT a }]) = _
  rw [hcons]
  exact linesOf_cons_log _ _ _ _ hc hmore

/-- C3, witness: the router mock of the scenario. -/
theorem scenario_line_witness :
    ∃ k2 more, pollCycle (env sampleAddresses) scenarioRouter 3000 (boot 0) = some k2 ∧
      linesOf (eventsSince (boot 0) k2) = some ("USDT => USDC : 0.99" :: more) :=
  scenario_line sampleAddresses scenarioRouter [1000000, 500000000000000000, 990000] 3000 (boot 0)
    3000 rfl rfl (by decide) rfl rfl rfl

/-- C4, counterexample: with the configured pairs and a router that raises on the
second pair's query, the first pair's line is printed, but the cycle arms no timer:
no next cycle is scheduled. -/
theorem cycle_reschedule_counterexample :
    scenarioRouter 1000000 ["0xUSDC", "0xWETH", "0xUSDT"]
      = .error (.callException "call revert exception") ∧
    (pollCycle (env sampleAddresses) scenarioRouter 3000 (boot 0)).map
      (fun k2 => (linesOf (eventsSince (boot 0) k2), armsOf (eventsSince (boot 0) k2), k2.timers))
      = some (some ["USDT => USDC : 0.99"], [], []) := by
  exact ⟨by rfl, by rfl⟩

/-- C4, amended: after a poll cycle in which the query of every pair succeeded,
the next cycle is scheduled after the fixed delay of 3000 milliseconds, as the last
action of the cycle; when the router raises on the second pair's query, the first
pair's line is still emitted, and no next cycle is scheduled. -/
theorem cycle_reschedule (e : Env) (router : Router) (wait : Nat) (k : Keeper) (t : Nat)
    (ht : k.timers = [t]) (ha : k.awaiting = []) (hw : t ≤ k.now + wait) :
    ((∀ p ∈ e.pairs, p.tokenIn.decimals ≤ 256) → (∀ p ∈ e.pairs, Answers e router p) →
      ∃ k2, pollCycle e router wait k = some k2 ∧
        armsOf (eventsSince k k2) = [3000] ∧
        (eventsSince k k2).getLast? = some (.arm 3000) ∧
        k2.timers = [k.now + wait + 3000] ∧ k2.awaiting = []) ∧
    (∀ (p1 p2 : Pair) (post : List Pair) (f : Fault), e.pairs = p1 :: p2 :: post →
      p1.tokenIn.decimals ≤ 256 → p2.tokenIn.decimals ≤ 256 → Answers e router p1 →
      router (10 ^ p2.tokenIn.decimals) (route e p2) = .error f →
      ∃ k2 call, pollCycle e router wait k = some k2 ∧
        QuoteCall e router p1 call ∧ logsOf (eventsSince k k2) = [call] ∧
        armsOf (eventsSince k k2) = [] ∧ k2.timers = []) := by
  obtain ⟨k2, hk2, hev, htm, haw, _⟩ := pollCycle_eq e router wait k t [] ht ha hw
  constructor
  · intro hd hr
    have harms := loopTrace_arms e router e.pairs hd hr
    refine ⟨k2, hk2, ?_, ?_, ?_, haw⟩
    · rw [hev]; exact harms
    · rw [hev]; exact getLast?_cons_of_getLast? _ _ _ (loopTrace_last e router e.pairs hd hr)
    · rw [htm, harms]; rfl
  · intro p1 p2 post f hps hd1 hd2 ha1 hf
    obtain ⟨hq, ⟨calls, hcalls, hlogs⟩, harms, _⟩ := loopTrace_fail e router p2 post f hd2 hf [p1]
      (by intro q hq; simp only [List.mem_singleton] at hq; subst hq; exact hd1)
      (by intro q hq; simp only [List.mem_singleton] at hq; subst hq; exact ha1)
    rw [List.singleton_append, ← hps] at hlogs harms
    cases hcalls with
    | cons hcall hrest =>
      cases hrest
      refine ⟨k2, _, hk2, hcall, ?_, ?_, ?_⟩
      · rw [hev]; exact hlogs
      · rw [hev]; exact harms
      · rw [htm, harms]; rfl

/-- C4, witness: a cycle of the configured pairs in which every query succeeds,
and one in which the router raises on the second pair's query. -/
theorem cycle_reschedule_witness :
    (∃ k2, pollCycle (env sampleAddresses) steadyRouter 3000 (boot 0) = some k2 ∧
        armsOf (eventsSince (boot 0) k2) = [3000] ∧
        (eventsSince (boot 0) k2).getLast? = some (.arm 3000) ∧
        k2.timers = [(boot 0).now + 3000 + 3000] ∧ k2.awaiting = []) ∧
    (∃ k2 call, pollCycle (env sampleAddresses) scenarioRouter 3000 (boot 0) = some k2 ∧
        QuoteCall (env sampleAddresses) scenarioRouter
          { tokenIn := USDT sampleAddresses, tokenOut := USDC sampleAddresses } call ∧
        logsOf (eventsSince (boot 0) k2) = [call] ∧
        armsOf (eventsSince (boot 0) k2) = [] ∧ k2.timers = []) :=
  ⟨(cycle_reschedule (env sampleAddresses) steadyRouter 3000 (boot 0) 3000 rfl rfl (by decide)).1
      (by decide)
      (by
        intro p hp
        simp only [env, pairs, List.mem_cons, List.mem_singleton, List.not_mem_nil, or_false] at hp
        rcases hp with rfl | rfl <;> exact ⟨_, rfl, rfl⟩),
    (cycle_reschedule (env sampleAddresses) scenarioRouter 3000 (boot 0) 3000 rfl rfl (by decide)).2
      { tokenIn := USDT sampleAddresses, tokenOut := USDC sampleAddresses }
      { tokenIn := USDC sampleAddresses, tokenOut := USDT sampleAddresses } []
      (.callException "call revert exception") rfl (by decide) (by decide)
      ⟨[1000000, 500000000000000000, 990000], rfl, rfl⟩ rfl⟩

/-- C9: when the router query of a pair of a cycle fails (the pairs before it,
`pre`, having been answered), the fault is not handled: the callback ends rejected,
the `console.log` calls are those of the pairs before it and no others, the queries
are those of the pairs up to it and none for a later pair, no separator is printed,
no timer is armed, and from then on no step of the event loop adds an event: the
keeper never polls again. -/
theorem cycle_fault (e : Env) (router : Router) (wait : Nat) (k : Keeper) (t : Nat)
    (ht : k.timers = [t]) (ha : k.awaiting = []) (hw : t ≤ k.now + wait)
    (pre : List Pair) (p : Pair) (post : List Pair) (f : Fault)
    (hps : e.pairs = pre ++ p :: post)
    (hd : ∀ q ∈ pre, q.tokenIn.decimals ≤ 256) (hr : ∀ q ∈ pre, Answers e router q)
    (hdp : p.tokenIn.decimals ≤ 256)
    (hf : router (10 ^ p.tokenIn.decimals) (route e p) = .error f) :
    ∃ k2, pollCycle e router wait k = some k2 ∧
      queriesOf (eventsSince k k2)
        = (pre ++ [p]).map (fun q => ((10 : Int) ^ q.tokenIn.decimals, route e q)) ∧
      (∃ calls, List.Forall₂ (QuoteCall e router) pre calls ∧
        logsOf (eventsSince k k2) = calls) ∧
      ["-----------------------"] ∉ logsOf (eventsSince k k2) ∧
      (eventsSince k k2).getLast? = some (.reject f) ∧
      armsOf (eventsSince k k2) = [] ∧ k2.timers = [] ∧ k2.awaiting = [] ∧
      ∀ ls : List Label, events (run e ls k2) = events k2 ∧ (run e ls k2).timers = [] := by
  obtain ⟨k2, hk2, hev, htm, haw, _⟩ := pollCycle_eq e router wait k t [] ht ha hw
  obtain ⟨hq, ⟨calls, hcalls, hlogs⟩, harms, hlast⟩ :=
    loopTrace_fail e router p post f hdp hf pre hd hr
  rw [← hps] at hq hlogs harms hlast
  have htimers : k2.timers = [] := by rw [htm, harms]; rfl
  refine ⟨k2, hk2, ?_, ⟨calls, hcalls, ?_⟩, ?_, ?_, ?_, htimers, haw, ?_⟩
  · rw [hev]; exact hq
  · rw [hev]; exact hlogs
  · rw [hev]
    intro hmem
    have hmem2 : ["-----------------------"] ∈ calls := by
      have : logsOf (Event.fire :: loopTrace e router e.pairs) = calls := hlogs
      rw [this] at hmem
      exact hmem
    have := quoteCalls_length e router pre calls hcalls _ hmem2
    simp at this
  · rw [hev]; exact getLast?_cons_of_getLast? _ _ _ hlast
  · rw [hev]; exact harms
  · intro ls
    obtain ⟨h1, h2, _⟩ := run_halted e ls k2 htimers haw
    exact ⟨by simp [events, h1], h2⟩

/-- C9, witness: the configured pairs against the mock that raises on the second
pair's query. -/
theorem cycle_fault_witness :
    ∃ k2, pollCycle (env sampleAddresses) scenarioRouter 3000 (boot 0) = some k2 ∧
      queriesOf (eventsSince (boot 0) k2)
        = (([{ tokenIn := USDT sampleAddresses, tokenOut := USDC sampleAddresses }] ++
            [{ tokenIn := USDC sampleAddresses, tokenOut := USDT sampleAddresses }] : List Pair)).map
            (fun q => ((10 : Int) ^ q.tokenIn.decimals, route (env sampleAddresses) q)) ∧
      (∃ calls, List.Forall₂ (QuoteCall (env sampleAddresses) scenarioRouter)
          [{ tokenIn := USDT sampleAddresses, tokenOut := USDC sampleAddresses }] calls ∧
        logsOf (eventsSince (boot 0) k2) = calls) ∧
      ["-----------------------"] ∉ logsOf (eventsSince (boot 0) k2) ∧
      (eventsSince (boot 0) k2).getLast?
        = some (.reject (.callException "call revert exception")) ∧
      armsOf (eventsSince (boot 0) k2) = [] ∧ k2.timers = [] ∧ k2.awaiting = [] ∧
      ∀ ls : List Label, events (run (env sampleAddresses) ls k2) = events k2 ∧
        (run (env sampleAddresses) ls k2).timers = [] :=
  cycle_fault (env sampleAddresses) scenarioRouter 3000 (boot 0) 3000 rfl rfl (by decide)
    [{ tokenIn := USDT sampleAddresses, tokenOut := USDC sampleAddresses }]
    { tokenIn := USDC sampleAddresses, tokenOut := USDT sampleAddresses } []
    (.callException "call revert exception") rfl (by decide)
    (by
      intro q hq
      simp only [List.mem_singleton] at hq
      subst hq
      exact ⟨[1000000, 500000000000000000, 990000], rfl, rfl⟩)
    (by decide) rfl

/-- C10: for every pair of the configured pair list, `tokenIn.decimals` and
`tokenOut.decimals` are both 6, so for every router response the `console.log`
call of the pair (quote at scale `tokenIn.decimals`) is the same as with the quote
at scale `tokenOut.decimals`; the list consists of exactly a pair and its reverse. -/
theorem configured_scales (a : Addresses) :
    (∀ p ∈ pairs a, p.tokenIn.decimals = 6 ∧ p.tokenOut.decimals = 6 ∧
      ∀ quantityOut : List Nat,
        quoteArgs p p.tokenIn.decimals quantityOut = quoteArgs p p.tokenOut.decimals quantityOut) ∧
    (∃ x y : Token, pairs a = [{ tokenIn := x, tokenOut := y }, { tokenIn := y, tokenOut := x }]) ∧
    (env a).pairs = pairs a := by
  refine ⟨?_, ⟨USDT a, USDC a, rfl⟩, rfl⟩
  intro p hp
  simp only [pairs, List.mem_cons, List.mem_singleton, List.not_mem_nil, or_false] at hp
  rcases hp with rfl | rfl <;> exact ⟨rfl, rfl, fun _ => rfl⟩

/-- C10, witness: the configured pair list for the sample addresses. -/
theorem configured_scales_witness :
    (∀ p ∈ pairs sampleAddresses, p.tokenIn.decimals = 6 ∧ p.tokenOut.decimals = 6 ∧
      ∀ quantityOut : List Nat,
        quoteArgs p p.tokenIn.decimals quantityOut = quoteArgs p p.tokenOut.decimals quantityOut) ∧
    (∃ x y : Token,
      pairs sampleAddresses = [{ tokenIn := x, tokenOut := y }, { tokenIn := y, tokenOut := x }]) ∧
    (env sampleAddresses).pairs = pairs sampleAddresses :=
  configured_scales sampleAddresses

/-- C6, counterexample: at scale 6 one unit is `1_000_000` base units and is
written back as `1.0`, not `1`; at scale 257 the conversion throws. -/
theorem unit_round_trip_counterexample :
    parseUnits "1" 6 = .ok 1000000 ∧ formatUnits (some 1000000) 6 = .ok "1.0" ∧
    unitRoundTrip 6 = .ok "1.0" ∧ unitRoundTrip 6 ≠ .ok "1" ∧
    unitRoundTrip 257 = .error .invalidDecimalSize := by
  refine ⟨by rfl, by rfl, by rfl, ?_, by rfl⟩
  have h : unitRoundTrip 6 = .ok "1.0" := by rfl
  rw [h]
  decide

/-- C6, amended: converting one unit to base units at scale `d` gives `10 ^ d`
and formatting the result at the same scale gives the string `1.0` for every `d`
from 1 to 256, and the string `1` for `d = 0`; for `d` above 256 the conversion
throws. -/
theorem unit_round_trip (d : Nat) :
    (1 ≤ d → d ≤ 256 →
      parseUnits "1" d = .ok ((10 : Int) ^ d) ∧
      formatUnits (some ((10 : Int) ^ d)) d = .ok "1.0" ∧ unitRoundTrip d = .ok "1.0") ∧
    (d = 0 →
      parseUnits "1" d = .ok 1 ∧ formatUnits (some 1) d = .ok "1" ∧ unitRoundTrip d = .ok "1") ∧
    (256 < d → unitRoundTrip d = .error .invalidDecimalSize) := by
  refine ⟨?_, ?_, ?_⟩
  · intro h1 h
    refine ⟨parseUnits_one h, formatUnits_unit h1 h, ?_⟩
    simp [unitRoundTrip, parseUnits_one h, formatUnits_unit h1 h, bind, Except.bind]
  · intro h0
    subst h0
    exact ⟨by rfl, by rfl, by rfl⟩
  · intro h
    simp [unitRoundTrip, parseUnits_error h, bind, Except.bind]

/-- C6, witness: scales 18, 0 and 300. -/
theorem unit_round_trip_witness :
    (parseUnits "1" 18 = .ok ((10 : Int) ^ 18) ∧
      formatUnits (some ((10 : Int) ^ 18)) 18 = .ok "1.0" ∧ unitRoundTrip 18 = .ok "1.0") ∧
    (parseUnits "1" 0 = .ok 1 ∧ formatUnits (some 1) 0 = .ok "1" ∧ unitRoundTrip 0 = .ok "1") ∧
    unitRoundTrip 300 = .error .invalidDecimalSize :=
  ⟨(unit_round_trip 18).1 (by decide) (by decide), (unit_round_trip 0).2.1 rfl,
    (unit_round_trip 300).2.2 (by decide)⟩

/-- C7: for a pair whose `tokenIn` has `decimals` 0, the base-unit conversion does
not fail and gives input amount 1, which is the amount of the query the callback
issues, and for every final amount `x` the quote at scale 0 is the decimal string
of the integer `x`: digits only, no decimal point. -/
theorem zero_decimals (p : Pair) (h : p.tokenIn.decimals = 0) :
    parseUnits "1" p.tokenIn.decimals = .ok 1 ∧
    (∀ (e : Env) (rest : List Pair) (k : Keeper),
      (loopFrom e (p :: rest) k).trace = k.trace ++ [(k.now, .query 1 (route e p))]) ∧
    ∀ x : Nat,
      formatUnits (some (x : Int)) p.tokenIn.decimals = .ok (Nat.repr x) ∧
      (∀ a b : Nat, quoteArgs p p.tokenIn.decimals [a, b, x]
        = .ok [p.tokenIn.symbol, "=>", p.tokenOut.symbol, ":", Nat.repr x]) ∧
      (∀ c ∈ (Nat.repr x).data, c.isDigit = true) ∧ '.' ∉ (Nat.repr x).data := by
  have hp : parseUnits "1" p.tokenIn.decimals = .ok 1 := by
    rw [h]
    rfl
  refine ⟨hp, ?_, ?_⟩
  · intro e rest k
    simp [loopFrom, hp, emit]
  · intro x
    have hf : formatUnits (some (x : Int)) p.tokenIn.decimals = .ok (Nat.repr x) := by
      rw [h]
      exact formatUnits_zero x
    refine ⟨hf, ?_, repr_isDigit x, ?_⟩
    · intro a b
      simp [quoteArgs, hf, bind, Except.bind, pure, Except.pure]
    · intro hmem
      have := repr_isDigit x '.' hmem
      revert this
      decide

/-- C7, witness: the pair `(unitToken, USDC)`. -/
theorem zero_decimals_witness :
    parseUnits "1" unitToken.decimals = .ok 1 ∧
    (∀ (e : Env) (rest : List Pair) (k : Keeper),
      (loopFrom e ({ tokenIn := unitToken, tokenOut := USDC sampleAddresses } :: rest) k).trace
        = k.trace ++ [(k.now, .query 1
            (route e { tokenIn := unitToken, tokenOut := USDC sampleAddresses }))]) ∧
    ∀ x : Nat,
      formatUnits (some (x : Int)) unitToken.decimals = .ok (Nat.repr x) ∧
      (∀ a b : Nat,
        quoteArgs { tokenIn := unitToken, tokenOut := USDC sampleAddresses } unitToken.decimals
          [a, b, x] = .ok ["UNIT", "=>", "USDC", ":", Nat.repr x]) ∧
      (∀ c ∈ (Nat.repr x).data, c.isDigit = true) ∧ '.' ∉ (Nat.repr x).data :=
  zero_decimals { tokenIn := unitToken, tokenOut := USDC sampleAddresses } rfl

/-- C5: cycles never overlap. In every reachable state of the event loop at most
one timer is armed and at most one callback is suspended in a cycle, and never both
at once; an armed timer is the last event of the trace and its deadline is 3000 ms
after the instant it was armed; every timer but the first one is armed right after
the separator was printed, at the same instant, with delay 3000; and every cycle
begins right after such an arming and at least 3000 ms later. -/
theorem no_overlap (e : Env) (t0 : Nat) (k : Keeper) (h : Reachable e t0 k) :
    k.timers.length ≤ 1 ∧ k.awaiting.length ≤ 1 ∧
    k.timers.length + k.awaiting.length ≤ 1 ∧
    (k.timers ≠ [] → k.awaiting = []) ∧
    (∀ t ∈ k.timers, ∃ pre t1, k.trace = pre ++ [(t1, Event.arm 3000)] ∧ t = t1 + 3000) ∧
    (∀ pre post t d, k.trace = pre ++ (t, Event.arm d) :: post →
      d = 3000 ∧ (pre = [] ∨ ∃ pre2, pre = pre2 ++ [(t, Event.log ["-----------------------"])])) ∧
    (∀ pre post t, k.trace = pre ++ (t, Event.fire) :: post →
      ∃ pre2 t1, pre = pre2 ++ [(t1, Event.arm 3000)] ∧ t1 + 3000 ≤ t) := by
  obtain ⟨htr, hst⟩ := reachable_inv e t0 k h
  have hone := hst.one
  refine ⟨by omega, by omega, hone, ?_, hst.armed, htr.arms, htr.fires⟩
  intro hne
  have : 0 < k.timers.length := List.length_pos_of_ne_nil hne
  exact List.eq_nil_of_length_eq_zero (by omega)

/-- C5, witness: the sample keeper when its second cycle has just begun. -/
theorem no_overlap_witness :
    secondCycleState.timers.length ≤ 1 ∧ secondCycleState.awaiting.length ≤ 1 ∧
    secondCycleState.timers.length + secondCycleState.awaiting.length ≤ 1 ∧
    (secondCycleState.timers ≠ [] → secondCycleState.awaiting = []) ∧
    (∀ t ∈ secondCycleState.timers,
      ∃ pre t1, secondCycleState.trace = pre ++ [(t1, Event.arm 3000)] ∧ t = t1 + 3000) ∧
    (∀ pre post t d, secondCycleState.trace = pre ++ (t, Event.arm d) :: post →
      d = 3000 ∧ (pre = [] ∨ ∃ pre2, pre = pre2 ++ [(t, Event.log ["-----------------------"])])) ∧
    (∀ pre post t, secondCycleState.trace = pre ++ (t, Event.fire) :: post →
      ∃ pre2 t1, pre = pre2 ++ [(t1, Event.arm 3000)] ∧ t1 + 3000 ≤ t) :=
  no_overlap (env sampleAddresses) 0 secondCycleState
    (reachable_run (env sampleAddresses) 0 _ _ Reachable.boot)

/-- C8: invoking `startKeeper` issues no router query and prints nothing: right
after the call exactly one timer is armed, for 3000 ms, nothing is suspended and no
timer can fire yet; and in every reachable state whatever follows the arming starts
with the firing of that timer, so that every query is issued at `t0 + 3000` or later
and after that firing. -/
theorem start_is_idle (e : Env) (t0 : Nat) :
    ((boot t0).trace = [(t0, Event.arm 3000)] ∧
      queriesOf (events (boot t0)) = [] ∧ logsOf (events (boot t0)) = [] ∧
      (boot t0).timers = [t0 + 3000] ∧ (boot t0).awaiting = [] ∧
      (∀ i, step e (boot t0) (.fire i) = none) ∧
      (∀ i resp, step e (boot t0) (.resolve i resp) = none)) ∧
    ∀ k, Reachable e t0 k →
      ∀ pre post t amountIn path, k.trace = pre ++ (t, Event.query amountIn path) :: post →
        t0 + 3000 ≤ t ∧
        ∃ t1 pre2, pre = (t0, Event.arm 3000) :: (t1, Event.fire) :: pre2 ∧ t0 + 3000 ≤ t1 := by
  refine ⟨⟨rfl, rfl, rfl, rfl, rfl, ?_, ?_⟩, ?_⟩
  · intro i
    cases i with
    | zero => simp [step, boot, startKeeper, emit]
    | succ j => simp [step, boot, startKeeper, emit]
  · intro i resp
    simp [step, boot, startKeeper, emit]
  · intro k hk pre post t amountIn path hsplit
    obtain ⟨htr, _⟩ := reachable_inv e t0 k hk
    obtain ⟨rest, hrest, hbound, hhead⟩ := htr.first
    rw [hrest] at hsplit
    cases pre with
    | nil =>
      have := (List.cons.inj hsplit).1
      cases this
    | cons x pre1 =>
      obtain ⟨hx, hrest2⟩ := List.cons.inj hsplit
      subst hx
      have hmem : (t, Event.query amountIn path) ∈ rest := by rw [hrest2]; simp
      refine ⟨hbound _ hmem, ?_⟩
      rcases hhead with hnil | ⟨t1, rest2, hr2⟩
      · rw [hnil] at hmem; cases hmem
      · rw [hr2] at hrest2
        cases pre1 with
        | nil =>
          have := (List.cons.inj hrest2).1
          cases this
        | cons y pre2 =>
          obtain ⟨hy, _⟩ := List.cons.inj hrest2
          subst hy
          exact ⟨t1, pre2, rfl, hbound (t1, Event.fire) (by rw [hr2]; exact List.mem_cons_self _ _)⟩

/-- C8, witness: the sample keeper started at time 0, and its first query, issued
when the timer fires at time 3000. -/
theorem start_is_idle_witness :
    ((boot 0).trace = [(0, Event.arm 3000)] ∧
      queriesOf (events (boot 0)) = [] ∧ logsOf (events (boot 0)) = [] ∧
      (boot 0).timers = [0 + 3000] ∧ (boot 0).awaiting = [] ∧
      (∀ i, step (env sampleAddresses) (boot 0) (.fire i) = none) ∧
      (∀ i resp, step (env sampleAddresses) (boot 0) (.resolve i resp) = none)) ∧
    (0 + 3000 ≤ 3000 ∧
      ∃ t1 pre2, [((0 : Nat), Event.arm 3000), (3000, Event.fire)]
        = (0, Event.arm 3000) :: (t1, Event.fire) :: pre2 ∧ 0 + 3000 ≤ t1) :=
  ⟨(start_is_idle (env sampleAddresses) 0).1,
    (start_is_idle (env sampleAddresses) 0).2 firstQueryState
      (reachable_run (env sampleAddresses) 0 _ _ Reachable.boot)
      [(0, Event.arm 3000), (3000, Event.fire)] [] 3000 1000000 ["0xUSDT", "0xWETH", "0xUSDC"]
      (by rfl)⟩

end AzosKeeper
